import Mathlib

/-!
Verification development for the GDB/MI transport and session engine
(`src/gdb/parser.rs`, `src/gdb/client.rs`, `src/gdb/types.rs`).

Strings are modelled as `List Char`; the stateless MI line parser is a
shallow embedding of `MiParser`, with the anchored regular expressions of
`MiParser::new` translated into equivalent deterministic matchers and the
recursive-descent value grammar translated function by function.  The
recursive value parsers take an explicit fuel argument (the Rust functions
recurse on strictly shorter slices, so any fuel larger than twice the input
length is enough; top-level wrappers supply it).  `u64` arithmetic is
modelled as `Nat` reduced modulo `2 ^ 64` where the source wraps.
-/

/-! ## MI data model (`src/gdb/types.rs`) -/

inductive ResultClass where
  | Done
  | Running
  | Connected
  | Error
  | Exit
deriving DecidableEq, Repr

inductive AsyncClass where
  | Stopped
  | Running
deriving DecidableEq, Repr

inductive NotificationClass where
  | BreakpointCreated
  | BreakpointModified
  | BreakpointDeleted
  | ThreadGroupAdded
  | ThreadGroupStarted
  | ThreadGroupExited
  | ThreadCreated
  | ThreadSelected
  | ThreadExited
  | LibraryLoaded
  | LibraryUnloaded
  | CmdParamChanged
  | MemoryChanged
  | ParamChanged
deriving DecidableEq, Repr

/-- `MiValue` from `types.rs`; `MiTuple = HashMap<String, MiValue>` is
modelled as an association list with replace-on-insert semantics and
key lookup (the source only queries tuples by key, never by order). -/
inductive MiValue where
  | String (s : List Char)
  | List (l : List MiValue)
  | Tuple (t : List (List Char × MiValue))
  | None

abbrev MiTuple := List (List Char × MiValue)

/-- `HashMap::insert`: replace the binding if the key is present, add it otherwise. -/
def tupleInsert (t : MiTuple) (k : List Char) (v : MiValue) : MiTuple :=
  if t.any (fun p => p.1 == k) then
    t.map (fun p => if p.1 == k then (k, v) else p)
  else
    t ++ [(k, v)]

/-- `HashMap::get`. -/
def tupleGet (t : MiTuple) (k : List Char) : Option MiValue :=
  match t.find? (fun p => p.1 == k) with
  | some p => some p.2
  | none => none

/-- `MiResult` (a `variable=value` pair; the Rust field `variable` is a Lean
keyword, so it is called `var` here). -/
structure MiResult where
  var : List Char
  value : MiValue

/-- `MiOutputRecord` (the Rust field `class` is a Lean keyword, so the
constructor arguments call it `cls`). -/
inductive MiOutputRecord where
  | Result (token : Option Nat) (cls : ResultClass) (results : List MiResult)
  | Async (token : Option Nat) (cls : AsyncClass) (results : List MiResult)
  | Notification (cls : NotificationClass) (results : List MiResult)
  | Console (s : List Char)
  | Target (s : List Char)
  | Log (s : List Char)

/-- `Breakpoint` from `types.rs` (`#[derive(Default)]` gives empty strings,
`false`, `None`, `0`). -/
structure Breakpoint where
  number : List Char := []
  breakpoint_type : List Char := []
  disposition : List Char := []
  enabled : Bool := false
  addr : Option (List Char) := none
  func : Option (List Char) := none
  file : Option (List Char) := none
  fullname : Option (List Char) := none
  line : Option Nat := none
  thread_groups : Option (List (List Char)) := none
  times : Nat := 0
  original_location : Option (List Char) := none
  condition : Option (List Char) := none
  ignore_count : Option Nat := none
deriving DecidableEq, Repr

/-- `MemoryContent`. -/
structure MemoryContent where
  addr : List Char
  data : List (List Char)
deriving DecidableEq, Repr

/-! ## Character classes and trimming

Rust `char::is_whitespace`, regex `\d` and `\w` are Unicode classes; the MI
protocol is ASCII, so the embedding uses the ASCII classes. -/

def isDigitChar (c : Char) : Bool := c.isDigit

def isWordChar (c : Char) : Bool := c.isAlphanum || c == '_'

def isSpaceChar (c : Char) : Bool := c.isWhitespace

/-- `str::trim_start`. -/
def trimStart (l : List Char) : List Char := l.dropWhile isSpaceChar

/-- `str::trim`. -/
def trimList (l : List Char) : List Char :=
  ((l.dropWhile isSpaceChar).reverse.dropWhile isSpaceChar).reverse

/-! ## `MiParser::unescape_string` -/

def unescape_string : List Char → List Char
  | [] => []
  | ['\\'] => ['\\']
  | '\\' :: n :: rest =>
    match n with
    | 'n' => '\n' :: unescape_string rest
    | 't' => '\t' :: unescape_string rest
    | 'r' => '\r' :: unescape_string rest
    | '\\' => '\\' :: unescape_string rest
    | '"' => '"' :: unescape_string rest
    | _ => '\\' :: unescape_string (n :: rest)
  | c :: rest => c :: unescape_string rest
termination_by l => l.length

/-! ## `MiParser::parse_string`

The loop builds the unescaped payload up to the first unescaped quote, but
the remaining slice is computed from the position of the first raw `'"'`
(`input[1..].find('"')`), exactly as in the source. -/

/-- The character a backslash escape produces (`parse_string`'s escaped arm). -/
def escapedChar (c : Char) : List Char :=
  match c with
  | 'n' => ['\n']
  | 't' => ['\t']
  | 'r' => ['\r']
  | '\\' => ['\\']
  | '"' => ['"']
  | _ => ['\\', c]

/-- Scan to the first unescaped quote, returning the unescaped payload,
or `none` if the quote is missing (`Unterminated string`). -/
def scanQuoted : List Char → Bool → Option (List Char)
  | [], _ => none
  | c :: cs, true => (scanQuoted cs false).map (fun r => escapedChar c ++ r)
  | c :: cs, false =>
    if c == '\\' then scanQuoted cs true
    else if c == '"' then some []
    else (scanQuoted cs false).map (fun r => c :: r)

def parse_string (input : List Char) : Except (List Char) (List Char × List Char) :=
  match input with
  | '"' :: rest =>
    match scanQuoted rest false with
    | none => .error "Unterminated string".toList
    | some result =>
      match rest.findIdx? (fun c => c == '"') with
      | none => .error "Unterminated string".toList
      | some k => .ok (result, input.drop (k + 2))
  | _ => .error "String must start with a quote".toList

/-! ## Depth-counted scans (`parse_list`, `parse_tuple`, `find_value_end`)

Depth is an `Int` because the Rust scanners use `i32` and may go negative. -/

/-- The closing-brace scan of `find_value_end` (and the quote toggling shared by
all scans): `open1`/`open2` increment, a close character decrements; the scan
succeeds when a character in `closeSet` brings the depth to zero outside a
string.  `decSet` are characters that decrement without the zero test
(`parse_list`'s first scan decrements on `'}'` but only `']'` can close). -/
def scanClose (incSet : List Char) (decSet : List Char) (closeSet : List Char) :
    List Char → Int → Bool → Bool → Nat → Option Nat
  | [], _, _, _, _ => none
  | c :: cs, depth, inStr, esc, i =>
    if esc then scanClose incSet decSet closeSet cs depth inStr false (i + 1)
    else if c == '\\' then scanClose incSet decSet closeSet cs depth inStr true (i + 1)
    else if c == '"' then scanClose incSet decSet closeSet cs depth (!inStr) false (i + 1)
    else if !inStr && incSet.contains c then
      scanClose incSet decSet closeSet cs (depth + 1) inStr false (i + 1)
    else if !inStr && closeSet.contains c then
      if depth - 1 == 0 then some i
      else scanClose incSet decSet closeSet cs (depth - 1) inStr false (i + 1)
    else if !inStr && decSet.contains c then
      scanClose incSet decSet closeSet cs (depth - 1) inStr false (i + 1)
    else scanClose incSet decSet closeSet cs depth inStr false (i + 1)

/-- The scan for the end of a quoted string in `find_value_end`. -/
def scanStringEnd : List Char → Bool → Nat → Option Nat
  | [], _, _ => none
  | c :: cs, esc, i =>
    if esc then scanStringEnd cs false (i + 1)
    else if c == '\\' then scanStringEnd cs true (i + 1)
    else if c == '"' then some i
    else scanStringEnd cs false (i + 1)

/-- `MiParser::find_value_end`. -/
def find_value_end (input : List Char) : Except (List Char) (List Char × List Char) :=
  match input with
  | [] => .ok ([], [])
  | c :: rest =>
    if c == '"' then
      match scanStringEnd rest false 0 with
      | some i => .ok (input.take (i + 2), input.drop (i + 2))
      | none => .error "Unterminated string".toList
    else if c == '{' then
      match scanClose ['{'] [] ['}'] rest 1 false false 0 with
      | some i => .ok (input.take (i + 2), input.drop (i + 2))
      | none => .error "Unterminated tuple".toList
    else if c == '[' then
      match scanClose ['['] [] [']'] rest 1 false false 0 with
      | some i => .ok (input.take (i + 2), input.drop (i + 2))
      | none => .error "Unterminated list".toList
    else
      let e := (input.findIdx? (fun ch => ch == ',')).getD input.length
      .ok (input.take e, input.drop e)

/-- The comma split at depth 1 in `parse_list`: chunks of `inner` separated by
commas that sit at depth 1 outside strings (braces and brackets both track
depth, `\` escapes one character). -/
def splitTopCommas : List Char → Int → Bool → Bool → List Char → List (List Char)
  | [], _, _, _, acc => [acc.reverse]
  | c :: cs, depth, inStr, esc, acc =>
    if esc then splitTopCommas cs depth inStr false (c :: acc)
    else if c == '\\' then splitTopCommas cs depth inStr true (c :: acc)
    else if c == '"' then splitTopCommas cs depth (!inStr) false (c :: acc)
    else if !inStr && (c == '{' || c == '[') then splitTopCommas cs (depth + 1) inStr false (c :: acc)
    else if !inStr && (c == '}' || c == ']') then splitTopCommas cs (depth - 1) inStr false (c :: acc)
    else if !inStr && c == ',' && depth == 1 then acc.reverse :: splitTopCommas cs depth inStr false []
    else splitTopCommas cs depth inStr false (c :: acc)

/-! ## The recursive value grammar (`parse_value`, `parse_list`, `parse_tuple`)

Fueled mutual recursion; every Rust-level recursive call happens on a
strictly shorter slice after at most one same-length hop, so fuel
`2 * length + 2` is always sufficient (concrete evaluations below simply
supply it). -/

mutual

/-- `MiParser::parse_value`. -/
def parse_value : Nat → List Char → Except (List Char) (MiValue × List Char)
  | 0, _ => .error "fuel".toList
  | fuel + 1, input0 =>
    let input := trimStart input0
    if input.isEmpty then .ok (.None, input)
    else
      let c := input.head!
      if c == '"' then
        match parse_string input with
        | .ok (s, remaining) => .ok (.String s, remaining)
        | .error e => .error e
      else if c == '[' then
        match parse_list fuel input with
        | .ok (l, remaining) => .ok (.List l, remaining)
        | .error e => .error e
      else if c == '{' then
        match parse_tuple fuel input with
        | .ok (t, remaining) => .ok (.Tuple t, remaining)
        | .error e => .error e
      else
        match input.findIdx? (fun ch => ch == '=') with
        | some eqPos =>
          let potentialKey := input.take eqPos
          if potentialKey.all (fun ch => ch.isAlphanum || ch == '_' || ch == '-') then
            match parse_value fuel (input.drop (eqPos + 1)) with
            | .ok (innerValue, remaining) =>
              let t := tupleInsert (tupleInsert [] "__key__".toList (.String potentialKey))
                "__value__".toList innerValue
              .ok (.Tuple t, remaining)
            | .error e => .error e
          else
            let e := (input.findIdx? (fun ch => ch == ',' || ch == '}' || ch == ']')).getD input.length
            .ok (.String (input.take e), input.drop e)
        | none =>
          let e := (input.findIdx? (fun ch => ch == ',' || ch == '}' || ch == ']')).getD input.length
          .ok (.String (input.take e), input.drop e)

/-- `MiParser::parse_list`: find the matching `]` (the first scan decrements on
`}` without closing), split the inner slice at top-level commas, and parse each
trimmed non-empty chunk, silently skipping chunks that fail. -/
def parse_list : Nat → List Char → Except (List Char) (List MiValue × List Char)
  | 0, _ => .error "fuel".toList
  | fuel + 1, input =>
    match input with
    | '[' :: content =>
      match scanClose ['{', '['] ['}'] [']'] content 1 false false 0 with
      | none => .error "Unterminated list".toList
      | some endPos =>
        let inner := trimList (content.take endPos)
        let remaining := content.drop (endPos + 1)
        if inner.isEmpty then .ok ([], remaining)
        else
          let chunks := splitTopCommas inner 1 false false []
          let values := chunks.foldl (fun acc chunk =>
            let elem := trimList chunk
            if elem.isEmpty then acc
            else match parse_value fuel elem with
              | .ok (v, _) => acc ++ [v]
              | .error _ => acc) []
          .ok (values, remaining)
    | _ => .error "List must start with a bracket".toList

/-- `MiParser::parse_tuple`: find the matching close (this scan increments on
`{` or `[` and closes on `}` or `]`), then consume `key=value` pairs with
`find_value_end`; errors inside a pair propagate. -/
def parse_tuple : Nat → List Char → Except (List Char) (MiTuple × List Char)
  | 0, _ => .error "fuel".toList
  | fuel + 1, input =>
    match input with
    | '{' :: content =>
      match scanClose ['{', '['] [] ['}', ']'] content 1 false false 0 with
      | none => .error "Unterminated tuple".toList
      | some endPos =>
        let inner := trimList (content.take endPos)
        let remaining := content.drop (endPos + 1)
        if inner.isEmpty then .ok ([], remaining)
        else
          match parse_tuple_pairs fuel inner [] with
          | .ok t => .ok (t, remaining)
          | .error e => .error e
    | _ => .error "Tuple must start with a brace".toList

/-- The `while !current.is_empty()` pair loop inside `parse_tuple`. -/
def parse_tuple_pairs : Nat → List Char → MiTuple → Except (List Char) MiTuple
  | 0, _, _ => .error "fuel".toList
  | fuel + 1, current, t =>
    if current.isEmpty then .ok t
    else
      match current.findIdx? (fun ch => ch == '=') with
      | none => .error "No equals sign in tuple entry".toList
      | some eqPos =>
        let key := trimList (current.take eqPos)
        let valueStart := trimStart (current.drop (eqPos + 1))
        match find_value_end valueStart with
        | .error e => .error e
        | .ok (value, valueEnd) =>
          match (if value.isEmpty then .ok (.None, ([] : List Char)) else parse_value fuel value :
              Except (List Char) (MiValue × List Char)) with
          | .error e => .error e
          | .ok (parsedValue, _) =>
            let t := tupleInsert t key parsedValue
            let next := trimStart valueEnd
            let next := if next.head? == some ',' then trimStart (next.drop 1) else next
            parse_tuple_pairs fuel next t

end

/-! ## `parse_result` and `parse_results` -/

/-- `MiParser::parse_result`: split at the first `=` and parse the value
(with fuel `2 * len + 2`, always sufficient for the value grammar). -/
def parse_result (input : List Char) : Except (List Char) (MiResult × List Char) :=
  match input.findIdx? (fun ch => ch == '=') with
  | none => .error "No equals sign found".toList
  | some eqPos =>
    let v := input.take eqPos
    let rest := input.drop (eqPos + 1)
    match parse_value (2 * rest.length + 2) rest with
    | .error e => .error e
    | .ok (value, remaining) => .ok ({ var := v, value := value }, remaining)

/-- The `while` loop of `MiParser::parse_results`, fueled; each successful
step strictly shrinks `current`, so fuel `length + 1` is always enough. -/
def parseResultsGo : Nat → List Char → List MiResult
  | 0, _ => []
  | fuel + 1, current =>
    if current.isEmpty then []
    else
      match parse_result current with
      | .ok (r, remaining) =>
        r :: parseResultsGo fuel (remaining.dropWhile (fun c => c == ','))
      | .error _ => []

/-- `MiParser::parse_results`: total, never fails; parses `variable=value`
pairs from the front and stops at the first failure, discarding the rest. -/
def parse_results (input : List Char) : List MiResult :=
  parseResultsGo (input.length + 1) input

/-! ## Class parsers -/

/-- `MiParser::parse_result_class`. -/
def parse_result_class (s : List Char) : Except (List Char) ResultClass :=
  if s = "done".toList then .ok .Done
  else if s = "running".toList then .ok .Running
  else if s = "connected".toList then .ok .Connected
  else if s = "error".toList then .ok .Error
  else if s = "exit".toList then .ok .Exit
  else .error ("Unknown result class: ".toList ++ s)

/-- `MiParser::parse_async_class`. -/
def parse_async_class (s : List Char) : Except (List Char) AsyncClass :=
  if s = "stopped".toList then .ok .Stopped
  else if s = "running".toList then .ok .Running
  else .error ("Unknown async class: ".toList ++ s)

/-- `MiParser::parse_notification_class`. -/
def parse_notification_class (s : List Char) : Except (List Char) NotificationClass :=
  if s = "breakpoint-created".toList then .ok .BreakpointCreated
  else if s = "breakpoint-modified".toList then .ok .BreakpointModified
  else if s = "breakpoint-deleted".toList then .ok .BreakpointDeleted
  else if s = "thread-group-added".toList then .ok .ThreadGroupAdded
  else if s = "thread-group-started".toList then .ok .ThreadGroupStarted
  else if s = "thread-group-exited".toList then .ok .ThreadGroupExited
  else if s = "thread-created".toList then .ok .ThreadCreated
  else if s = "thread-selected".toList then .ok .ThreadSelected
  else if s = "thread-exited".toList then .ok .ThreadExited
  else if s = "library-loaded".toList then .ok .LibraryLoaded
  else if s = "library-unloaded".toList then .ok .LibraryUnloaded
  else if s = "cmd-param-changed".toList then .ok .CmdParamChanged
  else if s = "param-changed".toList then .ok .ParamChanged
  else if s = "memory-changed".toList then .ok .MemoryChanged
  else .error ("Unknown notification class: ".toList ++ s)

/-! ## The anchored line regexes of `MiParser::new`

Each anchored regex is translated to a deterministic matcher.  E.g. for
`^(\d*)\^(\w+)(?:,(.*))?$`: the greedy `\d*` takes the maximal leading digit
run (backtracking cannot help, since `^` and `,` are not digits and `\w`
excludes `,`), then `\^`, then a maximal non-empty word run, and the rest of
the line must be empty or start with `,`; `.` never matches a newline. -/

def U64MOD : Nat := 2 ^ 64

/-- Numeric value of a decimal digit run. -/
def digitsToNat (d : List Char) : Nat :=
  d.foldl (fun acc c => acc * 10 + (c.toNat - '0'.toNat)) 0

/-- `caps.get(1).and_then(|m| m.as_str().parse::<u64>().ok())`: the token
capture is absent-equivalent when empty, and `parse::<u64>` fails on
overflow. -/
def tokenOfDigits (d : List Char) : Option Nat :=
  if d.isEmpty then none
  else if digitsToNat d < U64MOD then some (digitsToNat d) else none

/-- Matcher for `^(\d*)\P(\w+)(?:,(.*))?$` with `P` the literal prefix
(`^` for results, `*` for async records): leading digit run, the prefix
character, a non-empty word run, then nothing or a comma and the rest. -/
def matchTokenPrefixed (p : Char) (line : List Char) :
    Option (List Char × List Char × Option (List Char)) :=
  let d := line.takeWhile isDigitChar
  match line.dropWhile isDigitChar with
  | c :: rest =>
    if c == p then
      let w := rest.takeWhile isWordChar
      if w.isEmpty then none
      else
        let t := rest.dropWhile isWordChar
        if t.isEmpty then some (d, w, none)
        else if t.head? == some ',' then
          if (t.drop 1).contains '\n' then none else some (d, w, some (t.drop 1))
        else none
    else none
  | [] => none

/-- The lazy `\S+?` of the notification regex, having already consumed the
non-empty reversed class `acc`: the whole pattern matches at the current
length when the remainder is empty (skip the optional group) or starts with
a comma whose newline-free tail feeds `(.*)$`; otherwise the class extends
one character — but never across whitespace (`\S`), which kills the match.
Backtracking therefore stops at the *smallest* such length, which may carry
the class across leading commas: on `=,x` the class is `,x`. -/
def scanLazyClass : List Char → List Char → Option (List Char × Option (List Char))
  | acc, [] => some (acc.reverse, none)
  | acc, c :: cs =>
    if c == ',' && !(cs.contains '\n') then some (acc.reverse, some cs)
    else if isSpaceChar c then none
    else scanLazyClass (c :: acc) cs

/-- Matcher for `^=(\S+?)(?:,(.*))?$`: a non-empty, whitespace-free class
grown lazily until a comma (with newline-free rest) or the end of the line
lets the whole pattern match. -/
def matchNotificationLine (line : List Char) : Option (List Char × Option (List Char)) :=
  match line with
  | [] => none
  | c :: rest =>
    if c == '=' then
      match rest with
      | [] => none
      | c0 :: cs0 => if isSpaceChar c0 then none else scanLazyClass [c0] cs0
    else none

/-- Matcher for `^P"(.*)"$` with `P` one of `~`, `@`, `&`: the payload is
everything between the quote at position 1 and a final quote. -/
def matchStreamLine (p : Char) (line : List Char) : Option (List Char) :=
  match line with
  | c :: b :: rest =>
    if c == p && b == '"' && !rest.isEmpty && rest.getLast? == some '"'
        && !rest.dropLast.contains '\n' then
      some rest.dropLast
    else none
  | _ => none

/-! ## `MiParser::parse_line` -/

/-- The pattern cascade of `MiParser::parse_line` after the blank/`(gdb)`
guard: try result / async / notification / console / target / log in
order; a line matching none of the six regexes is treated as console
output.  Unknown class names (and unterminated values inside `parse_tuple`)
make the parse fail with `Err`. -/
def parse_line_core (line : List Char) : Except (List Char) (Option MiOutputRecord) :=
    match matchTokenPrefixed '^' line with
    | some (d, w, rest) =>
      match parse_result_class w with
      | .error e => .error e
      | .ok cls =>
        .ok (some (.Result (tokenOfDigits d) cls
          (match rest with | some r => parse_results r | none => [])))
    | none =>
    match matchTokenPrefixed '*' line with
    | some (d, w, rest) =>
      match parse_async_class w with
      | .error e => .error e
      | .ok cls =>
        .ok (some (.Async (tokenOfDigits d) cls
          (match rest with | some r => parse_results r | none => [])))
    | none =>
    match matchNotificationLine line with
    | some (w, rest) =>
      match parse_notification_class w with
      | .error e => .error e
      | .ok cls =>
        .ok (some (.Notification cls
          (match rest with | some r => parse_results r | none => [])))
    | none =>
    match matchStreamLine '~' line with
    | some content => .ok (some (.Console (unescape_string content)))
    | none =>
    match matchStreamLine '@' line with
    | some content => .ok (some (.Target (unescape_string content)))
    | none =>
    match matchStreamLine '&' line with
    | some content => .ok (some (.Log (unescape_string content)))
    | none => .ok (some (.Console line))

/-- `MiParser::parse_line`: trim, drop blank lines and the `(gdb)` sentinel,
then run the pattern cascade. -/
def parse_line (line0 : List Char) : Except (List Char) (Option MiOutputRecord) :=
  let line := trimList line0
  if line.isEmpty || line == "(gdb)".toList then .ok none
  else parse_line_core line

/-! ## Domain decoders (`parser.rs` free functions) -/

/-- `MiParser::extract_string`. -/
def extract_string (v : MiValue) : Option (List Char) :=
  match v with
  | .String s => some s
  | _ => none

/-- `MiParser::get_tuple_string`. -/
def get_tuple_string (t : MiTuple) (k : List Char) : Option (List Char) :=
  match tupleGet t k with
  | some v => extract_string v
  | none => none

/-- `str::parse::<u64>`: optional leading `+`, then a non-empty digit run
that fits in 64 bits. -/
def parseU64 (s : List Char) : Option Nat :=
  let digits := match s with
    | '+' :: rest => rest
    | _ => s
  if digits.isEmpty || !digits.all isDigitChar then none
  else if digitsToNat digits < U64MOD then some (digitsToNat digits) else none

/-- `parse_breakpoint`: the first `bkpt` result whose value is a tuple;
a missing `number` aborts with `None` (the `?` operator). -/
def parse_breakpoint : List MiResult → Option Breakpoint
  | [] => none
  | r :: rest =>
    if r.var == "bkpt".toList then
      match r.value with
      | .Tuple tuple =>
        match get_tuple_string tuple "number".toList with
        | none => none
        | some num =>
          some { number := num
                 breakpoint_type := (get_tuple_string tuple "type".toList).getD []
                 disposition := (get_tuple_string tuple "disp".toList).getD []
                 enabled := ((get_tuple_string tuple "enabled".toList).map
                   (fun s => s == "y".toList)).getD true
                 addr := get_tuple_string tuple "addr".toList
                 func := get_tuple_string tuple "func".toList
                 file := get_tuple_string tuple "file".toList
                 fullname := get_tuple_string tuple "fullname".toList
                 line := (get_tuple_string tuple "line".toList).bind parseU64
                 times := ((get_tuple_string tuple "times".toList).bind parseU64).getD 0
                 condition := get_tuple_string tuple "cond".toList
                 ignore_count := (get_tuple_string tuple "ignore".toList).bind parseU64
                 original_location := get_tuple_string tuple "original-location".toList }
      | _ => parse_breakpoint rest
    else parse_breakpoint rest

/-- `parse_breakpoint_from_tuple`. -/
def parse_breakpoint_from_tuple (tuple : MiTuple) : Option Breakpoint :=
  match get_tuple_string tuple "number".toList with
  | none => none
  | some num =>
    some { number := num
           breakpoint_type := (get_tuple_string tuple "type".toList).getD []
           disposition := (get_tuple_string tuple "disp".toList).getD []
           enabled := ((get_tuple_string tuple "enabled".toList).map
             (fun s => s == "y".toList)).getD true
           addr := get_tuple_string tuple "addr".toList
           func := get_tuple_string tuple "func".toList
           file := get_tuple_string tuple "file".toList
           fullname := get_tuple_string tuple "fullname".toList
           line := (get_tuple_string tuple "line".toList).bind parseU64
           thread_groups := none
           times := ((get_tuple_string tuple "times".toList).bind parseU64).getD 0
           original_location := get_tuple_string tuple "original-location".toList
           condition := get_tuple_string tuple "cond".toList
           ignore_count := (get_tuple_string tuple "ignore".toList).bind parseU64 }

/-- One `key → field` update of the in-progress breakpoint inside
`parse_breakpoint_list`'s body loop (`Some(key_str) if current_bp.is_some()`
arm). -/
def bkptUpdateField (bp : Breakpoint) (key : List Char) (val : MiValue) : Breakpoint :=
  match val with
  | .String s =>
    if key == "number".toList then { bp with number := s }
    else if key == "type".toList then { bp with breakpoint_type := s }
    else if key == "disp".toList then { bp with disposition := s }
    else if key == "enabled".toList then { bp with enabled := s == "y".toList }
    else if key == "addr".toList then { bp with addr := some s }
    else if key == "func".toList then { bp with func := some s }
    else if key == "file".toList then { bp with file := some s }
    else if key == "fullname".toList then { bp with fullname := some s }
    else if key == "line".toList then { bp with line := parseU64 s }
    else if key == "times".toList then { bp with times := (parseU64 s).getD 0 }
    else if key == "original-location".toList then { bp with original_location := some s }
    else if key == "cond".toList then { bp with condition := some s }
    else if key == "ignore".toList then { bp with ignore_count := parseU64 s }
    else bp
  | .List l =>
    if key == "thread-groups".toList then
      { bp with thread_groups := some (l.filterMap extract_string) }
    else bp
  | _ => bp

/-- Flush the in-progress breakpoint (`if !bp.number.is_empty() { push }`). -/
def flushBp (curr : Option Breakpoint) : List Breakpoint :=
  match curr with
  | some bp => if bp.number.isEmpty then [] else [bp]
  | none => []

/-- The `for item in body_list` loop of `parse_breakpoint_list`: a
`__key__ = "bkpt"` tuple starts a new breakpoint from its `__value__`
tuple; other keyed tuples update the current one; anything else is
skipped. -/
def parse_breakpoint_list_body : List MiValue → Option Breakpoint → List Breakpoint
  | [], curr => flushBp curr
  | item :: rest, curr =>
    match item with
    | .Tuple tuple =>
      match get_tuple_string tuple "__key__".toList with
      | some key =>
        if key == "bkpt".toList then
          let newBp : Option Breakpoint :=
            match tupleGet tuple "__value__".toList with
            | some (.Tuple inner) => parse_breakpoint_from_tuple inner
            | _ => some {}
          flushBp curr ++ parse_breakpoint_list_body rest newBp
        else
          match curr with
          | some bp =>
            let bp := match tupleGet tuple "__value__".toList with
              | some val => bkptUpdateField bp key val
              | none => bp
            parse_breakpoint_list_body rest (some bp)
          | none => parse_breakpoint_list_body rest none
      | none => parse_breakpoint_list_body rest curr
    | _ => parse_breakpoint_list_body rest curr

/-- `parse_breakpoint_list`: decode every `BreakpointTable` result's `body`
list. -/
def parse_breakpoint_list (results : List MiResult) : List Breakpoint :=
  results.foldl (fun acc result =>
    if result.var == "BreakpointTable".toList then
      match result.value with
      | .Tuple table =>
        match tupleGet table "body".toList with
        | some (.List bodyList) => acc ++ parse_breakpoint_list_body bodyList none
        | _ => acc
      | _ => acc
    else acc) []

/-- `parse_memory_content`: the first tuple of the first `memory` result
whose value is a non-empty list; the address falls back from `begin` to
`addr` to `offset`, and the whole hex blob is stored as a single-element
`data` list. -/
def parse_memory_content : List MiResult → Option MemoryContent
  | [] => none
  | r :: rest =>
    if r.var == "memory".toList then
      match r.value with
      | .List (first :: _) =>
        match first with
        | .Tuple memTuple =>
          match ((get_tuple_string memTuple "begin".toList).orElse (fun _ =>
              (get_tuple_string memTuple "addr".toList))).orElse (fun _ =>
              get_tuple_string memTuple "offset".toList) with
          | none => none
          | some a =>
            match get_tuple_string memTuple "contents".toList with
            | none => none
            | some contents => some { addr := a, data := [contents] }
        | _ => parse_memory_content rest
      | _ => parse_memory_content rest
    else parse_memory_content rest

/-- The `msg` extraction shared by the error arms of the high-level command
methods (`find "msg"` then `extract_string`, defaulting to
`"Unknown error"`). -/
def mi_msg (results : List MiResult) : List Char :=
  match results.find? (fun r => r.var == "msg".toList) with
  | some r => (extract_string r.value).getD "Unknown error".toList
  | none => "Unknown error".toList

/-! ## The client (`src/gdb/client.rs`)

`GdbClient` is modelled by the fields the claims are about: whether the
subprocess and its stdin handle are present, the `u64` token counter, the
key set of the `pending_responses` map (the reply channels carry no
information relevant here), and the shared `GdbSessionState`.  I/O is
abstracted: `send_command` takes the reply that the reader thread would
push into the pending channel within the timeout (`none` when the timeout
elapses first), and returns the bytes it wrote to the debugger's stdin. -/

structure GdbSessionState where
  connected : Bool := false
  running : Bool := false
  target_remote : Bool := false
  architecture : Option (List Char) := none
  executable : Option (List Char) := none
  current_thread : Option (List Char) := none
  current_frame : Option Nat := none
deriving DecidableEq, Repr

structure GdbClientState where
  hasProcess : Bool
  hasStdin : Bool
  token_counter : Nat
  pending_responses : List Nat
  state : GdbSessionState
deriving DecidableEq, Repr

/-- `GdbClient::new`: counter starts at 1, empty pending table, default state. -/
def GdbClient_new : GdbClientState :=
  { hasProcess := false, hasStdin := false, token_counter := 1,
    pending_responses := [], state := {} }

/-- `AtomicU64::fetch_add(1, SeqCst)`: returns the previous value and wraps
at `2 ^ 64`. -/
def fetch_add_token (counter : Nat) : Nat × Nat :=
  (counter, (counter + 1) % U64MOD)

/-- `HashMap::insert` on the pending table (keyed by token). -/
def pendingInsert (pending : List Nat) (t : Nat) : List Nat :=
  if pending.contains t then pending else pending ++ [t]

/-- `HashMap::remove` on the pending table. -/
def pendingRemove (pending : List Nat) (t : Nat) : List Nat :=
  pending.filter (fun x => x != t)

/-- What one `send_command`/`send_command_async` call produced. -/
structure SendOutcome where
  token : Nat
  written : List Char
  response : Except (List Char) MiOutputRecord

/-- `GdbClient::send_command`: allocate a token, register it in the pending
table, write `{token}-{command}\n`, then block on the reply channel with the
configured timeout.  On a reply, the entry is removed after `recv` returns;
on a timeout the `map_err(..)?` returns the error *before* the cleanup
block runs, so the entry stays in the table.  (`token` is reported as 0 in
the `GDB not running` early-return, where the source never allocates one.) -/
def send_command (st : GdbClientState) (command : List Char)
    (reply : Option MiOutputRecord) : SendOutcome × GdbClientState :=
  if !st.hasStdin then
    ({ token := 0, written := [], response := .error "GDB not running".toList }, st)
  else
    let (token, counter2) := fetch_add_token st.token_counter
    let pending1 := pendingInsert st.pending_responses token
    let written := (toString token).toList ++ '-' :: command ++ ['\n']
    match reply with
    | none =>
      ({ token := token, written := written,
         response := .error "Timeout waiting for GDB response".toList },
       { st with token_counter := counter2, pending_responses := pending1 })
    | some r =>
      ({ token := token, written := written, response := .ok r },
       { st with token_counter := counter2,
                 pending_responses := pendingRemove pending1 token })

/-- What one `send_command_async` call produced (it returns `Result<()>`:
the caller forfeits the reply). -/
structure AsyncSendOutcome where
  token : Nat
  written : List Char
  response : Except (List Char) Unit

/-- `GdbClient::send_command_async`: same token allocation and write, but no
pending-table registration and no wait. -/
def send_command_async (st : GdbClientState) (command : List Char) :
    AsyncSendOutcome × GdbClientState :=
  if !st.hasStdin then
    ({ token := 0, written := [], response := .error "GDB not running".toList }, st)
  else
    let (token, counter2) := fetch_add_token st.token_counter
    let written := (toString token).toList ++ '-' :: command ++ ['\n']
    ({ token := token, written := written, response := .ok () },
     { st with token_counter := counter2 })

/-! ## The reader thread (`GdbClient::read_output_loop`) -/

/-- What `read_output_loop` does with one line.  The loop never mutates the
pending table (delivery only clones the sender out of the map). -/
inductive PumpAction where
  | noRecord
  | deliver (token : Nat) (record : MiOutputRecord)
  | handle (record : MiOutputRecord)
  | parseFailure (e : List Char)

/-- The dispatch step: a `Result` record bearing a token found in the
pending table is delivered to that caller and nothing else happens;
everything else goes to `handle_async_record` (which, for `Result`
records, does nothing — its `match` has no `Result` arm). -/
def process_record (pending : List Nat) (record : MiOutputRecord) : PumpAction :=
  match record with
  | .Result (some tok) cls results =>
    if pending.contains tok then .deliver tok (.Result (some tok) cls results)
    else .handle (.Result (some tok) cls results)
  | r => .handle r

/-- One iteration of the `for line in reader.lines()` body: parse failures
are logged with `warn!` and the line is dropped — no record is surfaced, no
event is emitted, no pending entry is touched. -/
def process_line (pending : List Nat) (line : List Char) : PumpAction :=
  match parse_line line with
  | .error e => .parseFailure e
  | .ok none => .noRecord
  | .ok (some record) => process_record pending record

/-- `read_output_loop` over a prefix of the stream: each successfully read
line is processed (whatever the outcome) and the loop continues; it stops
only when reading the stream itself fails (or at EOF). -/
def read_output_loop (pending : List Nat) :
    List (Except (List Char) (List Char)) → List PumpAction
  | [] => []
  | .error _ :: _ => []
  | .ok line :: rest => process_line pending line :: read_output_loop pending rest

/-! ## `wait_for_stop` and the execution commands

`wait_for_stop` polls the shared running flag every 50 ms; the flag over
time is abstracted as a trace `running : Nat → Bool` giving its value at the
i-th poll, and the elapsed wall time at the i-th poll is modelled as exactly
`50 * i` ms.  The fuel `timeout_ms / 50 + 2` is one more than the iteration
at which the timeout check fires, so the fuel-exhaustion arm is
unreachable. -/

def wfsGo (timeout_ms : Nat) (running : Nat → Bool) :
    Nat → Nat → Except (List Char) Unit
  | 0, _ => .error "Timeout waiting for target to stop".toList
  | fuel + 1, i =>
    if !(running i) then .ok ()
    else if timeout_ms < 50 * i then .error "Timeout waiting for target to stop".toList
    else wfsGo timeout_ms running fuel (i + 1)

/-- `GdbClient::wait_for_stop`. -/
def wait_for_stop (timeout_ms : Nat) (running : Nat → Bool) : Except (List Char) Unit :=
  wfsGo timeout_ms running (timeout_ms / 50 + 2) 0

/-! The high-level command methods are `send_command` followed by a `match`
on the reply; the embedding of each method takes the reply record as an
argument (the send itself is `send_command` above) and, for the execution
commands, the running-flag trace seen by `wait_for_stop`. -/

/-- `GdbClient::exec_continue` reply handling: `^running` sets the running
flag and waits up to 60 000 ms for it to clear. -/
def exec_continue (reply : MiOutputRecord) (running : Nat → Bool) :
    Except (List Char) Unit :=
  match reply with
  | .Result _ .Running _ => wait_for_stop 60000 running
  | .Result _ .Error results => .error ("Failed to continue: ".toList ++ mi_msg results)
  | _ => .error "Unexpected response".toList

/-- `GdbClient::exec_next` reply handling: `^running` waits up to 5 000 ms. -/
def exec_next (reply : MiOutputRecord) (running : Nat → Bool) :
    Except (List Char) Unit :=
  match reply with
  | .Result _ .Running _ => wait_for_stop 5000 running
  | .Result _ .Done _ => .ok ()
  | .Result _ .Error results => .error ("Failed to step: ".toList ++ mi_msg results)
  | _ => .error "Failed to step: unexpected response".toList

/-- `GdbClient::exec_step` reply handling. -/
def exec_step (reply : MiOutputRecord) (running : Nat → Bool) :
    Except (List Char) Unit :=
  match reply with
  | .Result _ .Running _ => wait_for_stop 5000 running
  | .Result _ .Done _ => .ok ()
  | .Result _ .Error results => .error ("Failed to step: ".toList ++ mi_msg results)
  | _ => .error "Failed to step: unexpected response".toList

/-- `GdbClient::exec_step_instruction` reply handling. -/
def exec_step_instruction (reply : MiOutputRecord) (running : Nat → Bool) :
    Except (List Char) Unit :=
  match reply with
  | .Result _ .Running _ => wait_for_stop 5000 running
  | .Result _ .Done _ => .ok ()
  | .Result _ .Error results =>
    .error ("Failed to step instruction: ".toList ++ mi_msg results)
  | _ => .error "Failed to step instruction: unexpected response".toList

/-- `GdbClient::exec_next_instruction` reply handling. -/
def exec_next_instruction (reply : MiOutputRecord) (running : Nat → Bool) :
    Except (List Char) Unit :=
  match reply with
  | .Result _ .Running _ => wait_for_stop 5000 running
  | .Result _ .Done _ => .ok ()
  | .Result _ .Error results =>
    .error ("Failed to next instruction: ".toList ++ mi_msg results)
  | _ => .error "Failed to next instruction: unexpected response".toList

/-- `GdbClient::break_insert` reply handling: `^error` surfaces the `msg`
field. -/
def break_insert (reply : MiOutputRecord) : Except (List Char) Breakpoint :=
  match reply with
  | .Result _ .Done results =>
    match parse_breakpoint results with
    | some bp => .ok bp
    | none => .error "Failed to parse breakpoint response".toList
  | .Result _ .Error results =>
    .error ("Failed to insert breakpoint: ".toList ++ mi_msg results)
  | _ => .error "Unexpected response".toList

/-- `GdbClient::break_list` reply handling: only `^done` is inspected; any
other reply — including `^error` — yields `Ok(Vec::new())`. -/
def break_list (reply : MiOutputRecord) : Except (List Char) (List Breakpoint) :=
  match reply with
  | .Result _ .Done results => .ok (parse_breakpoint_list results)
  | _ => .ok []

/-- `GdbClient::var_delete` reply handling: any non-`done` reply collapses
to a fixed message that never contains the debugger's `msg`. -/
def var_delete (reply : MiOutputRecord) : Except (List Char) Unit :=
  match reply with
  | .Result _ .Done _ => .ok ()
  | _ => .error "Failed to delete variable".toList

/-- `GdbClient::break_enable` reply handling. -/
def break_enable (reply : MiOutputRecord) : Except (List Char) Unit :=
  match reply with
  | .Result _ .Done _ => .ok ()
  | _ => .error "Failed to enable breakpoint".toList

/-- `GdbClient::data_read_memory` reply handling. -/
def data_read_memory (reply : MiOutputRecord) : Except (List Char) MemoryContent :=
  match reply with
  | .Result _ .Done results =>
    match parse_memory_content results with
    | some mc => .ok mc
    | none => .error "Failed to parse memory content".toList
  | _ => .error "Failed to read memory".toList

/-! ## `GdbClient::stop` and `Drop` -/

/-- `GdbClient::stop`: if the process is present, write `-gdb-exit`, wait,
kill, reap, drop stdin and mark disconnected and not running; otherwise do
nothing.  Both paths return `Ok(())`. -/
def stop (st : GdbClientState) : Except (List Char) Unit × GdbClientState :=
  if st.hasProcess then
    let st' := { st with
      hasProcess := false
      hasStdin := false
      state := { st.state with connected := false, running := false } }
    (.ok (), st')
  else
    (.ok (), st)

/-- `impl Drop for GdbClient`: `drop` calls `self.stop()` and discards the
result. -/
def drop_engine (st : GdbClientState) : GdbClientState :=
  (stop st).2

/-! ## Concrete states, lines and relations used by the claim theorems -/

/-- A live client as `send_command` sees it right after `GdbClient::new`
and a successful spawn: process and stdin present, token counter still at
its initial value 1, no pending entries. -/
def sample_live_client : GdbClientState :=
  { hasProcess := true, hasStdin := true, token_counter := 1,
    pending_responses := [], state := {} }

/-- An `^error` reply with a `msg` field, as the debugger would send it. -/
def sample_error_reply : MiOutputRecord :=
  .Result none .Error
    [{ var := "msg".toList, value := .String "No symbol table is loaded.".toList }]

/-- The MI line of C5 (braces written as `\x7b`/`\x7d`). -/
def c5_line : List Char :=
  "^done,BreakpointTable=\x7bnr_rows=\"1\",body=[bkpt=\x7bnumber=\"1\",type=\"breakpoint\",disp=\"keep\",enabled=\"y\",addr=\"0x80000080\"\x7d]\x7d".toList

/-- The inner `bkpt` tuple as the parser produces it. -/
def c5_inner : MiTuple :=
  [("number".toList, .String "1".toList),
   ("type".toList, .String "breakpoint".toList),
   ("disp".toList, .String "keep".toList),
   ("enabled".toList, .String "y".toList),
   ("addr".toList, .String "0x80000080".toList)]

/-- The `body` list element: the `__key__`/`__value__` wrapper that keeps
the key `bkpt` next to its nested tuple. -/
def c5_body_elem : MiTuple :=
  [("__key__".toList, .String "bkpt".toList),
   ("__value__".toList, .Tuple c5_inner)]

/-- The `BreakpointTable` tuple. -/
def c5_table : MiTuple :=
  [("nr_rows".toList, .String "1".toList),
   ("body".toList, .List [.Tuple c5_body_elem])]

/-- The parsed top-level results of `c5_line`. -/
def c5_results_expected : List MiResult :=
  [{ var := "BreakpointTable".toList, value := .Tuple c5_table }]

/-- The single decoded breakpoint. -/
def c5_bp_expected : Breakpoint :=
  { number := "1".toList
    breakpoint_type := "breakpoint".toList
    disposition := "keep".toList
    enabled := true
    addr := some "0x80000080".toList }

/-- A live client mid-session, used to instantiate the hypotheses of the
theorems below. -/
def sample_busy_client : GdbClientState :=
  { hasProcess := true, hasStdin := true, token_counter := 5,
    pending_responses := [3, 4],
    state := { connected := true, running := true } }

/-! ## C7: the token counter -/

/-- The counter value before the `(k+1)`-st allocation (`fetch_add` iterated
from `GdbClient::new`'s initial value 1). -/
def counter_after : Nat → Nat
  | 0 => GdbClient_new.token_counter
  | k + 1 => (fetch_add_token (counter_after k)).2

/-- The token handed out by the `(k+1)`-st allocation (`fetch_add` returns
the previous counter value). -/
def nth_token (k : Nat) : Nat := (fetch_add_token (counter_after k)).1

/-- The property C10 claims of `parse_results`, stated as an inductive
relation: the output is the sequence of `variable=value` pairs parsed from
the front of the input, stopping (and silently discarding the rest) at the
end of input or at the first pair `parse_result` cannot parse. -/
inductive ParseResultsRel : List Char → List MiResult → Prop where
  | done : ParseResultsRel [] []
  | fail {input : List Char} {e : List Char} : input ≠ [] →
      parse_result input = .error e → ParseResultsRel input []
  | step {input : List Char} {r : MiResult} {rem : List Char} {rs : List MiResult} :
      input ≠ [] → parse_result input = .ok (r, rem) →
      ParseResultsRel (rem.dropWhile (fun c => c == ',')) rs →
      ParseResultsRel input (r :: rs)

/-! # Claims -/

/-- C1: the claim says a timed-out `send_command` leaves no pending entry
for its token.  The code does not: `rx.recv_timeout(..).map_err(..)?`
returns the timeout error *before* the `pending.remove(&token)` cleanup
block, and the reader thread never removes entries either, so the entry
leaks.  Evaluating the embedded `send_command` at the failing input (a
fresh live client whose reply never arrives within the timeout): the call
returns the timeout error, yet the pending table still holds token 1; by
contrast the reply-delivery path does remove the entry. -/
theorem C1_timeout_leaves_pending_entry :
    (send_command sample_live_client "exec-run".toList none).1.response
        = .error "Timeout waiting for GDB response".toList
    ∧ (send_command sample_live_client "exec-run".toList none).1.token = 1
    ∧ (send_command sample_live_client "exec-run".toList none).2.pending_responses = [1]
    ∧ (send_command sample_live_client "exec-run".toList
        (some (.Result (some 1) .Done []))).2.pending_responses = [] :=
  ⟨rfl, rfl, rfl, rfl⟩

/-- C2, counterexample: on a `^error` reply carrying a `msg`, `break_list`
does not return an error at all (it returns `Ok(vec![])`), and `var_delete`,
`break_enable` and `data_read_memory` return fixed messages that do not
carry the debugger's `msg`. -/
theorem C2_counterexample_error_reply_not_surfaced :
    break_list sample_error_reply = .ok []
    ∧ var_delete sample_error_reply = .error "Failed to delete variable".toList
    ∧ break_enable sample_error_reply = .error "Failed to enable breakpoint".toList
    ∧ data_read_memory sample_error_reply = .error "Failed to read memory".toList :=
  ⟨rfl, rfl, rfl, rfl⟩

/-- C2, amended: only the methods with an explicit `^error` arm (such as
`break_insert`) surface the debugger's `msg` in their error; `break_list`
returns `Ok` with an empty list for *any* non-`done` reply including
`^error`, and `var_delete`, `break_enable` and `data_read_memory` collapse
`^error` to fixed error messages without the `msg`. -/
theorem C2_amended_error_reply_handling :
    (∀ tok results, break_insert (.Result tok .Error results)
        = .error ("Failed to insert breakpoint: ".toList ++ mi_msg results))
    ∧ (∀ tok results, break_list (.Result tok .Error results) = .ok [])
    ∧ (∀ tok results, var_delete (.Result tok .Error results)
        = .error "Failed to delete variable".toList)
    ∧ (∀ tok results, break_enable (.Result tok .Error results)
        = .error "Failed to enable breakpoint".toList)
    ∧ (∀ tok results, data_read_memory (.Result tok .Error results)
        = .error "Failed to read memory".toList) :=
  ⟨fun _ _ => rfl, fun _ _ => rfl, fun _ _ => rfl, fun _ _ => rfl, fun _ _ => rfl⟩

set_option maxRecDepth 10000 in
/-- C5: parsing the `BreakpointTable` line yields a `^done` result whose
`body` list element is the `__key__ = "bkpt"` tuple wrapping the nested
breakpoint tuple, and the breakpoint-list decoder turns it into exactly one
`Breakpoint` with number `"1"`, kind `"breakpoint"`, enabled, at address
`"0x80000080"`. -/
theorem C5_breakpoint_table_decode :
    parse_line c5_line = .ok (some (.Result none .Done c5_results_expected))
    ∧ parse_breakpoint_list c5_results_expected = [c5_bp_expected]
    ∧ c5_bp_expected.number = "1".toList
    ∧ c5_bp_expected.breakpoint_type = "breakpoint".toList
    ∧ c5_bp_expected.enabled = true
    ∧ c5_bp_expected.addr = some "0x80000080".toList
    ∧ tupleGet c5_body_elem "__key__".toList = some (.String "bkpt".toList)
    ∧ tupleGet c5_body_elem "__value__".toList = some (.Tuple c5_inner)
    ∧ get_tuple_string c5_inner "number".toList = some "1".toList :=
  ⟨rfl, rfl, rfl, rfl, rfl, rfl, rfl, rfl, rfl⟩

/-- C8: `stop` is safe to call twice and from the destructor path: it always
returns `Ok(())`; a second call on an already-stopped engine changes
nothing; stopping a live engine marks it disconnected and not running (and
on engines satisfying the reachable-state invariant "no process implies
disconnected and stopped" — which `GdbClient::new` establishes — the flags
are false after *any* stop); and `Drop::drop` is exactly `stop`. -/
theorem C8_stop_idempotent_and_drop :
    (∀ st, (stop st).1 = .ok ())
    ∧ (∀ st, stop ((stop st).2) = (.ok (), (stop st).2))
    ∧ (∀ st, st.hasProcess = true →
        (stop st).2.state.connected = false ∧ (stop st).2.state.running = false)
    ∧ (∀ st, (st.hasProcess = false →
          st.state.connected = false ∧ st.state.running = false) →
        (stop st).2.state.connected = false ∧ (stop st).2.state.running = false)
    ∧ (GdbClient_new.hasProcess = false ∧ GdbClient_new.state.connected = false
        ∧ GdbClient_new.state.running = false)
    ∧ (∀ st, drop_engine st = (stop st).2) := by
  refine ⟨?_, ?_, ?_, ?_, ⟨rfl, rfl, rfl⟩, fun st => rfl⟩
  · intro st
    by_cases h : st.hasProcess <;> simp [stop, h]
  · intro st
    by_cases h : st.hasProcess <;> simp [stop, h]
  · intro st h
    simp [stop, h]
  · intro st h
    by_cases hp : st.hasProcess
    · simp [stop, hp]
    · simp only [Bool.not_eq_true] at hp
      rcases h hp with ⟨h1, h2⟩
      simp [stop, hp, h1, h2]

/-- C8 witness: applying the theorem to a concrete live client. -/
theorem C8_stop_idempotent_and_drop_witness :
    (stop sample_busy_client).2.state.connected = false
    ∧ (stop sample_busy_client).2.state.running = false :=
  C8_stop_idempotent_and_drop.2.2.1 sample_busy_client rfl

/-- C9: `send_command_async` allocates its token with the same
`fetch_add` on the same counter as `send_command` (so its counter update
agrees with `send_command`'s), leaves the pending table untouched, and a
later `Result` record bearing its token is not delivered to any caller:
the reader's dispatch hands it to `handle_async_record` (whose `match`
ignores `Result` records) instead of a pending channel.  The hypothesis is
the dispatcher invariant that pending tokens were allocated earlier, i.e.
are below the current counter. -/
theorem C9_async_send_bypasses_pending_table :
    ∀ st command,
      st.hasStdin = true →
      (∀ t ∈ st.pending_responses, t < st.token_counter) →
      (send_command_async st command).1.token = (fetch_add_token st.token_counter).1
      ∧ (send_command_async st command).2.token_counter = (fetch_add_token st.token_counter).2
      ∧ (∀ reply, (send_command st command reply).1.token = (fetch_add_token st.token_counter).1
          ∧ (send_command st command reply).2.token_counter = (fetch_add_token st.token_counter).2)
      ∧ (send_command_async st command).2.pending_responses = st.pending_responses
      ∧ (∀ cls results,
          process_record (send_command_async st command).2.pending_responses
              (.Result (some (send_command_async st command).1.token) cls results)
            = .handle (.Result (some (send_command_async st command).1.token) cls results)) := by
  intro st command hstdin hbound
  have hcontains : st.pending_responses.contains st.token_counter = false := by
    by_contra hc
    simp only [Bool.not_eq_false, List.contains_eq_any_beq, List.any_eq_true,
      beq_iff_eq] at hc
    obtain ⟨t, ht, hbeq⟩ := hc
    have := hbound t ht
    omega
  refine ⟨?_, ?_, ?_, ?_, ?_⟩
  · simp [send_command_async, fetch_add_token, hstdin]
  · simp [send_command_async, fetch_add_token, hstdin]
  · intro reply
    cases reply <;> simp [send_command, fetch_add_token, hstdin]
  · simp [send_command_async, hstdin]
  · intro cls results
    simp only [send_command_async, fetch_add_token, hstdin, process_record,
      Bool.not_true, Bool.false_eq_true, if_false, hcontains]

/-- C9 witness: the theorem applied to a concrete live client. -/
theorem C9_async_send_bypasses_pending_table_witness :
    (send_command_async sample_busy_client "exec-run".toList).2.pending_responses
        = sample_busy_client.pending_responses
    ∧ process_record (send_command_async sample_busy_client "exec-run".toList).2.pending_responses
          (.Result (some (send_command_async sample_busy_client "exec-run".toList).1.token) .Done [])
        = .handle (.Result (some (send_command_async sample_busy_client "exec-run".toList).1.token) .Done []) :=
  ⟨(C9_async_send_bypasses_pending_table sample_busy_client "exec-run".toList rfl
      (by decide)).2.2.2.1,
   (C9_async_send_bypasses_pending_table sample_busy_client "exec-run".toList rfl
      (by decide)).2.2.2.2 .Done []⟩

theorem counter_after_eq (k : Nat) : counter_after k = (1 + k) % U64MOD := by
  have hM : U64MOD = 18446744073709551616 := by norm_num [U64MOD]
  induction k with
  | zero =>
    show (1 : Nat) = (1 + 0) % U64MOD
    rw [hM]
  | succ k ih =>
    show (counter_after k + 1) % U64MOD = (1 + (k + 1)) % U64MOD
    rw [ih, hM]
    omega

theorem nth_token_eq (k : Nat) : nth_token k = (1 + k) % U64MOD :=
  counter_after_eq k

/-- C7, counterexample: `fetch_add` on a `u64` wraps, so the token sequence
is not strictly monotonically increasing: the allocation after the one that
returns `2^64 - 1` returns 0. -/
theorem C7_counterexample_token_wraps :
    nth_token (U64MOD - 2) = U64MOD - 1
    ∧ nth_token (U64MOD - 1) = 0
    ∧ ¬ nth_token (U64MOD - 2) < nth_token (U64MOD - 1) := by
  have hM : U64MOD = 18446744073709551616 := by norm_num [U64MOD]
  have e : ∀ k, nth_token k = (1 + k) % 18446744073709551616 := by
    intro k
    rw [nth_token_eq, hM]
  refine ⟨?_, ?_, ?_⟩
  · simp only [e, hM]
  · simp only [e, hM]
  · simp only [e, hM]
    omega

/-- C7, amended: the counter starts at 1, the first `send_command` call on a
live client uses token 1, the tokens of successive allocations are strictly
increasing as long as the `u64` counter has not wrapped around (fewer than
`2^64 - 1` allocations), and each send writes exactly the bytes
`{token}-{command}\n` to the debugger's stdin before blocking on the reply
channel. -/
theorem C7_amended_token_allocation :
    GdbClient_new.token_counter = 1
    ∧ nth_token 0 = 1
    ∧ (∀ k, k + 2 < U64MOD → nth_token k < nth_token (k + 1))
    ∧ (∀ st command reply, st.hasStdin = true →
        (send_command st command reply).1.token = st.token_counter
        ∧ (send_command st command reply).1.written
            = (toString st.token_counter).toList ++ '-' :: command ++ ['\n']
        ∧ (send_command st command reply).2.token_counter
            = (st.token_counter + 1) % U64MOD)
    ∧ (∀ command reply, (send_command sample_live_client command reply).1.token = 1) := by
  have hM : U64MOD = 18446744073709551616 := by norm_num [U64MOD]
  refine ⟨rfl, rfl, ?_, ?_, ?_⟩
  · intro k hk
    rw [nth_token_eq, nth_token_eq, hM]
    rw [hM] at hk
    omega
  · intro st command reply hstdin
    refine ⟨?_, ?_, ?_⟩ <;> cases reply <;>
      simp [send_command, fetch_add_token, hstdin]
  · intro command reply
    cases reply <;> rfl

/-- C7 witness: the amended theorem applied at the first allocation and at a
concrete live client sending the first initialization command. -/
theorem C7_amended_token_allocation_witness :
    0 + 2 < U64MOD
    ∧ nth_token 0 < nth_token 1
    ∧ (send_command sample_live_client "gdb-set mi-async on".toList none).1.written
        = (toString sample_live_client.token_counter).toList
            ++ '-' :: "gdb-set mi-async on".toList ++ ['\n'] :=
  ⟨by norm_num [U64MOD],
   C7_amended_token_allocation.2.2.1 0 (by norm_num [U64MOD]),
   (C7_amended_token_allocation.2.2.2.1 sample_live_client
      "gdb-set mi-async on".toList none rfl).2.1⟩

/-! ## C6: `wait_for_stop` -/

theorem wfsGo_ok_or_timeout (t : Nat) (r : Nat → Bool) :
    ∀ fuel i, wfsGo t r fuel i = .ok ()
      ∨ wfsGo t r fuel i = .error "Timeout waiting for target to stop".toList := by
  intro fuel
  induction fuel with
  | zero => intro i; right; rfl
  | succ fuel ih =>
    intro i
    simp only [wfsGo]
    by_cases hr : r i
    · rw [if_neg (by simp [hr])]
      by_cases ht : t < 50 * i
      · rw [if_pos ht]
        right
        rfl
      · rw [if_neg ht]
        exact ih (i + 1)
    · rw [if_pos (by simp [hr])]
      left
      rfl

theorem wfsGo_ok_iff (t : Nat) (r : Nat → Bool) :
    ∀ fuel i, fuel + i = t / 50 + 2 → i ≤ t / 50 + 1 →
      (wfsGo t r fuel i = .ok () ↔ ∃ j, i ≤ j ∧ j ≤ t / 50 + 1 ∧ r j = false) := by
  intro fuel
  induction fuel with
  | zero =>
    intro i h1 h2
    omega
  | succ fuel ih =>
    intro i h1 h2
    simp only [wfsGo]
    by_cases hr : r i
    · rw [if_neg (by simp [hr])]
      by_cases ht : t < 50 * i
      · rw [if_pos ht]
        have hdiv : t / 50 < i := (Nat.div_lt_iff_lt_mul (by norm_num)).2 (by omega)
        constructor
        · intro h
          exact Except.noConfusion h
        · rintro ⟨j, hij, hj, hrj⟩
          have : j = i := by omega
          subst this
          rw [hrj] at hr
          exact Bool.noConfusion hr
      · rw [if_neg ht]
        have hle : i ≤ t / 50 := (Nat.le_div_iff_mul_le (by norm_num)).2 (by omega)
        rw [ih (i + 1) (by omega) (by omega)]
        constructor
        · rintro ⟨j, hij, hj, hrj⟩
          exact ⟨j, by omega, hj, hrj⟩
        · rintro ⟨j, hij, hj, hrj⟩
          refine ⟨j, ?_, hj, hrj⟩
          rcases Nat.eq_or_lt_of_le hij with he | hl
          · subst he
            rw [hrj] at hr
            exact Bool.noConfusion hr
          · omega
    · rw [if_pos (by simp [hr])]
      simp only [Bool.not_eq_true] at hr
      constructor
      · intro _
        exact ⟨i, Nat.le_refl i, h2, hr⟩
      · intro _
        rfl

/-- C6: after an execution-controlling command whose reply has class
`running`, the API waits on the shared running flag: `exec_continue` with
`wait_for_stop 60000`, and the four single-step variants with
`wait_for_stop 5000`.  `wait_for_stop` polls the flag at 50 ms granularity
(the i-th poll at elapsed time `50 * i` ms in this model): it returns
`Ok(())` exactly when some poll not later than the first one past the
timeout sees the flag cleared, and the timeout error otherwise. -/
theorem C6_exec_commands_poll_running_flag :
    (∀ tok rs r, exec_continue (.Result tok .Running rs) r = wait_for_stop 60000 r)
    ∧ (∀ tok rs r, exec_next (.Result tok .Running rs) r = wait_for_stop 5000 r)
    ∧ (∀ tok rs r, exec_step (.Result tok .Running rs) r = wait_for_stop 5000 r)
    ∧ (∀ tok rs r, exec_step_instruction (.Result tok .Running rs) r = wait_for_stop 5000 r)
    ∧ (∀ tok rs r, exec_next_instruction (.Result tok .Running rs) r = wait_for_stop 5000 r)
    ∧ (∀ t r, wait_for_stop t r = .ok () ↔ ∃ j, j ≤ t / 50 + 1 ∧ r j = false)
    ∧ (∀ t r, wait_for_stop t r = .ok ()
        ∨ wait_for_stop t r = .error "Timeout waiting for target to stop".toList) := by
  refine ⟨fun _ _ _ => rfl, fun _ _ _ => rfl, fun _ _ _ => rfl, fun _ _ _ => rfl,
    fun _ _ _ => rfl, ?_, ?_⟩
  · intro t r
    have h := wfsGo_ok_iff t r (t / 50 + 2) 0 (by omega) (by omega)
    simpa [wait_for_stop] using h
  · intro t r
    exact wfsGo_ok_or_timeout t r (t / 50 + 2) 0

/-! ## C10: `parse_results` is total and parses a maximal prefix -/

theorem dropWhileLengthLe (p : Char → Bool) (l : List Char) :
    (l.dropWhile p).length ≤ l.length := by
  induction l with
  | nil => simp
  | cons a l ih =>
    rw [List.dropWhile_cons]
    split
    · exact Nat.le_succ_of_le ih
    · exact Nat.le_refl _

theorem parse_string_remaining {inp s rem : List Char}
    (h : parse_string inp = .ok (s, rem)) : rem.length ≤ inp.length := by
  unfold parse_string at h
  split at h
  · split at h
    · exact absurd h (by simp)
    · split at h
      · exact absurd h (by simp)
      · simp only [Except.ok.injEq, Prod.mk.injEq] at h
        obtain ⟨-, h2⟩ := h
        subst h2
        simp only [List.length_drop]
        omega
  · exact absurd h (by simp)

theorem parse_list_remaining {fuel : Nat} {inp : List Char} {l : List MiValue}
    {rem : List Char} (h : parse_list fuel inp = .ok (l, rem)) :
    rem.length ≤ inp.length := by
  match fuel with
  | 0 => exact absurd h (by simp [parse_list])
  | fuel + 1 =>
    unfold parse_list at h
    split at h
    · split at h
      · exact absurd h (by simp)
      · dsimp only at h
        split at h
        · simp only [Except.ok.injEq, Prod.mk.injEq] at h
          obtain ⟨-, h2⟩ := h
          subst h2
          simp only [List.length_drop, List.length_cons]
          omega
        · simp only [Except.ok.injEq, Prod.mk.injEq] at h
          obtain ⟨-, h2⟩ := h
          subst h2
          simp only [List.length_drop, List.length_cons]
          omega
    · exact absurd h (by simp)

theorem parse_tuple_remaining {fuel : Nat} {inp : List Char} {t : MiTuple}
    {rem : List Char} (h : parse_tuple fuel inp = .ok (t, rem)) :
    rem.length ≤ inp.length := by
  match fuel with
  | 0 => exact absurd h (by simp [parse_tuple])
  | fuel + 1 =>
    unfold parse_tuple at h
    split at h
    · split at h
      · exact absurd h (by simp)
      · dsimp only at h
        split at h
        · simp only [Except.ok.injEq, Prod.mk.injEq] at h
          obtain ⟨-, h2⟩ := h
          subst h2
          simp only [List.length_drop, List.length_cons]
          omega
        · split at h
          · simp only [Except.ok.injEq, Prod.mk.injEq] at h
            obtain ⟨-, h2⟩ := h
            subst h2
            simp only [List.length_drop, List.length_cons]
            omega
          · exact absurd h (by simp)
    · exact absurd h (by simp)

theorem parse_value_remaining :
    ∀ fuel (inp : List Char) (v : MiValue) (rem : List Char),
      parse_value fuel inp = .ok (v, rem) → rem.length ≤ inp.length := by
  intro fuel
  induction fuel with
  | zero =>
    intro inp v rem h
    exact absurd h (by simp [parse_value])
  | succ fuel ih =>
    intro inp v rem h
    have htrim : (trimStart inp).length ≤ inp.length := dropWhileLengthLe _ _
    unfold parse_value at h
    dsimp only at h
    split at h
    · simp only [Except.ok.injEq, Prod.mk.injEq] at h
      obtain ⟨-, h2⟩ := h
      subst h2
      exact htrim
    · split at h
      · split at h
        · simp only [Except.ok.injEq, Prod.mk.injEq] at h
          obtain ⟨-, h2⟩ := h
          subst h2
          exact le_trans (parse_string_remaining (by assumption)) htrim
        · exact absurd h (by simp)
      · split at h
        · split at h
          · simp only [Except.ok.injEq, Prod.mk.injEq] at h
            obtain ⟨-, h2⟩ := h
            subst h2
            exact le_trans (parse_list_remaining (by assumption)) htrim
          · exact absurd h (by simp)
        · split at h
          · split at h
            · simp only [Except.ok.injEq, Prod.mk.injEq] at h
              obtain ⟨-, h2⟩ := h
              subst h2
              exact le_trans (parse_tuple_remaining (by assumption)) htrim
            · exact absurd h (by simp)
          · split at h
            · split at h
              · split at h
                · simp only [Except.ok.injEq, Prod.mk.injEq] at h
                  obtain ⟨-, h2⟩ := h
                  subst h2
                  rename_i hpv
                  have hrec := ih _ _ _ hpv
                  have hdrop : ∀ n, ((trimStart inp).drop n).length ≤ (trimStart inp).length := by
                    intro n
                    simp only [List.length_drop]
                    omega
                  exact le_trans (le_trans hrec (hdrop _)) htrim
                · exact absurd h (by simp)
              · simp only [Except.ok.injEq, Prod.mk.injEq] at h
                obtain ⟨-, h2⟩ := h
                subst h2
                refine le_trans ?_ htrim
                simp only [List.length_drop]
                omega
            · simp only [Except.ok.injEq, Prod.mk.injEq] at h
              obtain ⟨-, h2⟩ := h
              subst h2
              refine le_trans ?_ htrim
              simp only [List.length_drop]
              omega

theorem parse_result_shrinks {inp : List Char} {r : MiResult} {rem : List Char}
    (h : parse_result inp = .ok (r, rem)) : rem.length < inp.length := by
  unfold parse_result at h
  split at h
  · exact absurd h (by simp)
  · rename_i eqPos heq
    have hne : inp ≠ [] := by
      rintro rfl
      simp at heq
    have hlen : 0 < inp.length := List.length_pos.2 hne
    dsimp only at h
    split at h
    · exact absurd h (by simp)
    all_goals
      rename_i hpv
      simp only [Except.ok.injEq, Prod.mk.injEq] at h
      obtain ⟨-, h2⟩ := h
      subst h2
      have hv := parse_value_remaining _ _ _ _ hpv
      simp only [List.length_drop] at hv
      omega

theorem parseResultsGo_rel :
    ∀ fuel (input : List Char), input.length < fuel →
      ParseResultsRel input (parseResultsGo fuel input) := by
  intro fuel
  induction fuel with
  | zero =>
    intro input h
    omega
  | succ fuel ih =>
    intro input h
    rw [parseResultsGo]
    by_cases he : input.isEmpty
    · rw [if_pos he]
      have : input = [] := List.isEmpty_iff.1 he
      subst this
      exact .done
    · rw [if_neg he]
      have hne : input ≠ [] := by simpa using he
      cases hp : parse_result input with
      | error e => exact .fail hne hp
      | ok pr =>
        obtain ⟨r, rem⟩ := pr
        have hlt := parse_result_shrinks hp
        have hdw : (rem.dropWhile (fun c => c == ',')).length ≤ rem.length :=
          dropWhileLengthLe _ _
        exact .step hne hp (ih _ (by omega))

/-- C10: `parse_results` is total and never signals an error (it returns a
plain list for every input); its output parses pairs from the front of the
input and, at the first pair it cannot parse, stops and returns the prefix
collected so far, silently discarding the remainder. -/
theorem C10_parse_results_totality :
    ∀ input, ParseResultsRel input (parse_results input) :=
  fun input => parseResultsGo_rel (input.length + 1) input (Nat.lt_succ_self _)

/-! ## C3 and C4: how `parse_line` dispatches on the line's prefix -/

theorem takeWhile_all {p : Char → Bool} :
    ∀ {xs : List Char}, (∀ x ∈ xs, p x = true) →
      xs.takeWhile p = xs ∧ xs.dropWhile p = [] := by
  intro xs
  induction xs with
  | nil => intro _; exact ⟨rfl, rfl⟩
  | cons a l ih =>
    intro h
    have ha : p a = true := h a (List.mem_cons_self a l)
    have hl := ih (fun x hx => h x (List.mem_cons_of_mem a hx))
    rw [List.takeWhile_cons, List.dropWhile_cons, ha]
    simp only [if_true]
    exact ⟨by rw [hl.1], hl.2⟩

theorem takeWhile_append_stop {p : Char → Bool} :
    ∀ (xs : List Char) {y : Char} {ys : List Char},
      (∀ x ∈ xs, p x = true) → p y = false →
      (xs ++ y :: ys).takeWhile p = xs ∧ (xs ++ y :: ys).dropWhile p = y :: ys := by
  intro xs
  induction xs with
  | nil =>
    intro y ys _ hy
    rw [List.nil_append, List.takeWhile_cons, List.dropWhile_cons, hy]
    exact ⟨rfl, rfl⟩
  | cons a l ih =>
    intro y ys h hy
    have ha : p a = true := h a (List.mem_cons_self a l)
    have hl := @ih y ys (fun x hx => h x (List.mem_cons_of_mem a hx)) hy
    rw [List.cons_append, List.takeWhile_cons, List.dropWhile_cons, ha]
    simp only [if_true]
    exact ⟨by rw [hl.1], hl.2⟩

/-- The token-prefixed matcher rejects a line whose first non-digit
character differs from the prefix. -/
theorem matchTokenPrefixed_ne {p c : Char} (d t : List Char)
    (hd : ∀ x ∈ d, isDigitChar x = true) (hc : isDigitChar c = false)
    (hne : (c == p) = false) :
    matchTokenPrefixed p (d ++ c :: t) = none := by
  unfold matchTokenPrefixed
  rw [(takeWhile_append_stop d hd hc).2]
  simp [hne]

/-- The token-prefixed matcher on `{digits}P{word}` (no results part). -/
theorem matchTokenPrefixed_eval_nocomma (p : Char) (d w : List Char)
    (hd : ∀ x ∈ d, isDigitChar x = true) (hp : isDigitChar p = false)
    (hw1 : w ≠ []) (hw2 : ∀ x ∈ w, isWordChar x = true) :
    matchTokenPrefixed p (d ++ p :: w) = some (d, w, none) := by
  unfold matchTokenPrefixed
  rw [(takeWhile_append_stop d hd hp).1, (takeWhile_append_stop d hd hp).2]
  simp [(takeWhile_all hw2).1, (takeWhile_all hw2).2, hw1]

/-- The token-prefixed matcher on `{digits}P{word},{rest}`. -/
theorem matchTokenPrefixed_eval_comma (p : Char) (d w r : List Char)
    (hd : ∀ x ∈ d, isDigitChar x = true) (hp : isDigitChar p = false)
    (hw1 : w ≠ []) (hw2 : ∀ x ∈ w, isWordChar x = true)
    (hr : r.contains '\n' = false) :
    matchTokenPrefixed p (d ++ p :: (w ++ ',' :: r)) = some (d, w, some r) := by
  have hr' : ¬ '\n' ∈ r := by simpa using hr
  have hcw : isWordChar ',' = false := by decide
  unfold matchTokenPrefixed
  rw [(takeWhile_append_stop d hd hp).1, (takeWhile_append_stop d hd hp).2]
  simp [(takeWhile_append_stop w hw2 hcw).1, (takeWhile_append_stop w hw2 hcw).2,
    hw1, hr']

/-- The notification matcher rejects a line not starting with `=`. -/
theorem matchNotificationLine_ne {c : Char} (t : List Char)
    (h : (c == '=') = false) : matchNotificationLine (c :: t) = none := by
  simp [matchNotificationLine, h]

/-- The lazy scan consumes an entire comma-free, whitespace-free suffix
and matches with the optional group skipped. -/
theorem scanLazyClass_all :
    ∀ (l acc : List Char), (∀ x ∈ l, (x == ',') = false) →
      (∀ x ∈ l, isSpaceChar x = false) →
      scanLazyClass acc l = some (acc.reverse ++ l, none) := by
  intro l
  induction l with
  | nil => intro acc _ _; simp [scanLazyClass]
  | cons c cs ih =>
    intro acc hc hs
    have hc0 : (c == ',') = false := hc c (List.mem_cons_self c cs)
    have hs0 : isSpaceChar c = false := hs c (List.mem_cons_self c cs)
    have step : scanLazyClass acc (c :: cs) = scanLazyClass (c :: acc) cs := by
      simp [scanLazyClass, hc0, hs0]
    rw [step, ih (c :: acc) (fun x hx => hc x (List.mem_cons_of_mem c hx))
      (fun x hx => hs x (List.mem_cons_of_mem c hx))]
    simp

/-- The lazy scan stops at the first comma after a comma-free,
whitespace-free class when the rest of the line is newline-free. -/
theorem scanLazyClass_comma :
    ∀ (l acc r : List Char), (∀ x ∈ l, (x == ',') = false) →
      (∀ x ∈ l, isSpaceChar x = false) → r.contains '\n' = false →
      scanLazyClass acc (l ++ ',' :: r) = some (acc.reverse ++ l, some r) := by
  intro l
  induction l with
  | nil =>
    intro acc r _ _ hr
    have hr' : ¬ '\n' ∈ r := by simpa using hr
    simp [scanLazyClass, hr, hr']
  | cons c cs ih =>
    intro acc r hc hs hr
    have hc0 : (c == ',') = false := hc c (List.mem_cons_self c cs)
    have hs0 : isSpaceChar c = false := hs c (List.mem_cons_self c cs)
    have step : ∀ t, scanLazyClass acc (c :: t) = scanLazyClass (c :: acc) t := by
      intro t
      simp [scanLazyClass, hc0, hs0]
    rw [List.cons_append, step, ih (c :: acc) r
      (fun x hx => hc x (List.mem_cons_of_mem c hx))
      (fun x hx => hs x (List.mem_cons_of_mem c hx)) hr]
    simp

/-- The notification matcher on `={class}` (no results part). -/
theorem matchNotificationLine_eval_nocomma (w : List Char) (hw1 : w ≠ [])
    (hw2 : ∀ x ∈ w, (x == ',') = false) (hw3 : w.any isSpaceChar = false) :
    matchNotificationLine ('=' :: w) = some (w, none) := by
  have hs : ∀ x ∈ w, isSpaceChar x = false := by
    intro x hx
    cases hxx : isSpaceChar x with
    | false => rfl
    | true => exact absurd (List.any_eq_true.2 ⟨x, hx, hxx⟩) (by simp [hw3])
  cases w with
  | nil => exact absurd rfl hw1
  | cons c0 w' =>
    have hs0 : isSpaceChar c0 = false := hs c0 (List.mem_cons_self c0 w')
    have h := scanLazyClass_all w' [c0]
      (fun x hx => hw2 x (List.mem_cons_of_mem c0 hx))
      (fun x hx => hs x (List.mem_cons_of_mem c0 hx))
    simp [matchNotificationLine, hs0, h]

/-- The notification matcher on `={class},{rest}`. -/
theorem matchNotificationLine_eval_comma (w r : List Char) (hw1 : w ≠ [])
    (hw2 : ∀ x ∈ w, (x == ',') = false) (hw3 : w.any isSpaceChar = false)
    (hr : r.contains '\n' = false) :
    matchNotificationLine ('=' :: (w ++ ',' :: r)) = some (w, some r) := by
  have hs : ∀ x ∈ w, isSpaceChar x = false := by
    intro x hx
    cases hxx : isSpaceChar x with
    | false => rfl
    | true => exact absurd (List.any_eq_true.2 ⟨x, hx, hxx⟩) (by simp [hw3])
  cases w with
  | nil => exact absurd rfl hw1
  | cons c0 w' =>
    have hs0 : isSpaceChar c0 = false := hs c0 (List.mem_cons_self c0 w')
    have h := scanLazyClass_comma w' [c0] r
      (fun x hx => hw2 x (List.mem_cons_of_mem c0 hx))
      (fun x hx => hs x (List.mem_cons_of_mem c0 hx)) hr
    simp [matchNotificationLine, hs0, h, List.cons_append]

/-- The stream matcher rejects a line whose first character is not the
stream prefix. -/
theorem matchStreamLine_ne {p c : Char} (t : List Char) (h : (c == p) = false) :
    matchStreamLine p (c :: t) = none := by
  cases t with
  | nil => rfl
  | cons b bs => simp [matchStreamLine, h]

/-- The stream matcher on `P"{content}"`. -/
theorem matchStreamLine_eval (p : Char) (content : List Char)
    (hc : content.contains '\n' = false) :
    matchStreamLine p (p :: '"' :: (content ++ ['"'])) = some content := by
  have hc' : ¬ '\n' ∈ content := by simpa using hc
  simp [matchStreamLine, List.getLast?_concat, List.dropLast_concat, hc']

theorem ne_gdb_of_mem {c : Char} {l : List Char} (hc : c ∈ l)
    (hng : ¬ c ∈ "(gdb)".toList) : l ≠ "(gdb)".toList :=
  fun he => hng (he ▸ hc)

/-- `parse_line` on a non-blank, non-`(gdb)` line that trimming leaves
unchanged is the pattern cascade. -/
theorem parse_line_unguard {line : List Char} (htrim : trimList line = line)
    (hne : line ≠ []) (hgdb : line ≠ "(gdb)".toList) :
    parse_line line = parse_line_core line := by
  have hne' : line.isEmpty = false := by
    cases hl : line.isEmpty
    · rfl
    · exact absurd (List.isEmpty_iff.1 hl) hne
  have hgdb' : (line == "(gdb)".toList) = false := by
    cases hl : line == "(gdb)".toList
    · rfl
    · exact absurd (by simpa using hl) hgdb
  unfold parse_line
  dsimp only
  rw [htrim, hne', hgdb']
  rfl

theorem matchTokenPrefixed_ne_head {p c : Char} (t : List Char)
    (hc : isDigitChar c = false) (hne : (c == p) = false) :
    matchTokenPrefixed p (c :: t) = none := by
  have h := @matchTokenPrefixed_ne p c [] t (by simp) hc hne
  simpa using h

theorem parse_line_core_result_nocomma (d w : List Char) (c : ResultClass)
    (hd : ∀ x ∈ d, isDigitChar x = true)
    (hw1 : w ≠ []) (hw2 : ∀ x ∈ w, isWordChar x = true)
    (hc : parse_result_class w = .ok c) :
    parse_line_core (d ++ '^' :: w) = .ok (some (.Result (tokenOfDigits d) c [])) := by
  simp only [parse_line_core,
    matchTokenPrefixed_eval_nocomma '^' d w hd (by decide) hw1 hw2, hc]

theorem parse_line_core_result_comma (d w r : List Char) (c : ResultClass)
    (hd : ∀ x ∈ d, isDigitChar x = true)
    (hw1 : w ≠ []) (hw2 : ∀ x ∈ w, isWordChar x = true)
    (hr : r.contains '\n' = false)
    (hc : parse_result_class w = .ok c) :
    parse_line_core (d ++ '^' :: (w ++ ',' :: r))
      = .ok (some (.Result (tokenOfDigits d) c (parse_results r))) := by
  simp only [parse_line_core,
    matchTokenPrefixed_eval_comma '^' d w r hd (by decide) hw1 hw2 hr, hc]

theorem parse_line_core_async_nocomma (d w : List Char) (c : AsyncClass)
    (hd : ∀ x ∈ d, isDigitChar x = true)
    (hw1 : w ≠ []) (hw2 : ∀ x ∈ w, isWordChar x = true)
    (hc : parse_async_class w = .ok c) :
    parse_line_core (d ++ '*' :: w) = .ok (some (.Async (tokenOfDigits d) c [])) := by
  simp only [parse_line_core,
    @matchTokenPrefixed_ne '^' '*' d w hd (by decide) (by decide),
    matchTokenPrefixed_eval_nocomma '*' d w hd (by decide) hw1 hw2, hc]

theorem parse_line_core_async_comma (d w r : List Char) (c : AsyncClass)
    (hd : ∀ x ∈ d, isDigitChar x = true)
    (hw1 : w ≠ []) (hw2 : ∀ x ∈ w, isWordChar x = true)
    (hr : r.contains '\n' = false)
    (hc : parse_async_class w = .ok c) :
    parse_line_core (d ++ '*' :: (w ++ ',' :: r))
      = .ok (some (.Async (tokenOfDigits d) c (parse_results r))) := by
  simp only [parse_line_core,
    @matchTokenPrefixed_ne '^' '*' d (w ++ ',' :: r) hd (by decide) (by decide),
    matchTokenPrefixed_eval_comma '*' d w r hd (by decide) hw1 hw2 hr, hc]

theorem parse_line_core_notification_nocomma (w : List Char) (c : NotificationClass)
    (hw1 : w ≠ []) (hw2 : ∀ x ∈ w, (x == ',') = false)
    (hw3 : w.any isSpaceChar = false)
    (hc : parse_notification_class w = .ok c) :
    parse_line_core ('=' :: w) = .ok (some (.Notification c [])) := by
  simp only [parse_line_core,
    @matchTokenPrefixed_ne_head '^' '=' w (by decide) (by decide),
    @matchTokenPrefixed_ne_head '*' '=' w (by decide) (by decide),
    matchNotificationLine_eval_nocomma w hw1 hw2 hw3, hc]

theorem parse_line_core_notification_comma (w r : List Char) (c : NotificationClass)
    (hw1 : w ≠ []) (hw2 : ∀ x ∈ w, (x == ',') = false)
    (hw3 : w.any isSpaceChar = false) (hr : r.contains '\n' = false)
    (hc : parse_notification_class w = .ok c) :
    parse_line_core ('=' :: (w ++ ',' :: r))
      = .ok (some (.Notification c (parse_results r))) := by
  simp only [parse_line_core,
    @matchTokenPrefixed_ne_head '^' '=' (w ++ ',' :: r) (by decide) (by decide),
    @matchTokenPrefixed_ne_head '*' '=' (w ++ ',' :: r) (by decide) (by decide),
    matchNotificationLine_eval_comma w r hw1 hw2 hw3 hr, hc]

theorem parse_line_core_console (content : List Char)
    (hc : content.contains '\n' = false) :
    parse_line_core ('~' :: '"' :: (content ++ ['"']))
      = .ok (some (.Console (unescape_string content))) := by
  simp only [parse_line_core,
    @matchTokenPrefixed_ne_head '^' '~' ('"' :: (content ++ ['"'])) (by decide) (by decide),
    @matchTokenPrefixed_ne_head '*' '~' ('"' :: (content ++ ['"'])) (by decide) (by decide),
    @matchNotificationLine_ne '~' ('"' :: (content ++ ['"'])) (by decide),
    matchStreamLine_eval '~' content hc]

theorem parse_line_core_target (content : List Char)
    (hc : content.contains '\n' = false) :
    parse_line_core ('@' :: '"' :: (content ++ ['"']))
      = .ok (some (.Target (unescape_string content))) := by
  simp only [parse_line_core,
    @matchTokenPrefixed_ne_head '^' '@' ('"' :: (content ++ ['"'])) (by decide) (by decide),
    @matchTokenPrefixed_ne_head '*' '@' ('"' :: (content ++ ['"'])) (by decide) (by decide),
    @matchNotificationLine_ne '@' ('"' :: (content ++ ['"'])) (by decide),
    @matchStreamLine_ne '~' '@' ('"' :: (content ++ ['"'])) (by decide),
    matchStreamLine_eval '@' content hc]

theorem parse_line_core_log (content : List Char)
    (hc : content.contains '\n' = false) :
    parse_line_core ('&' :: '"' :: (content ++ ['"']))
      = .ok (some (.Log (unescape_string content))) := by
  simp only [parse_line_core,
    @matchTokenPrefixed_ne_head '^' '&' ('"' :: (content ++ ['"'])) (by decide) (by decide),
    @matchTokenPrefixed_ne_head '*' '&' ('"' :: (content ++ ['"'])) (by decide) (by decide),
    @matchNotificationLine_ne '&' ('"' :: (content ++ ['"'])) (by decide),
    @matchStreamLine_ne '~' '&' ('"' :: (content ++ ['"'])) (by decide),
    @matchStreamLine_ne '@' '&' ('"' :: (content ++ ['"'])) (by decide),
    matchStreamLine_eval '&' content hc]

/-- A line matching none of the six regexes falls through to the synthetic
console record. -/
theorem parse_line_core_fallback (line : List Char)
    (h1 : matchTokenPrefixed '^' line = none)
    (h2 : matchTokenPrefixed '*' line = none)
    (h3 : matchNotificationLine line = none)
    (h4 : matchStreamLine '~' line = none)
    (h5 : matchStreamLine '@' line = none)
    (h6 : matchStreamLine '&' line = none) :
    parse_line_core line = .ok (some (.Console line)) := by
  simp only [parse_line_core, h1, h2, h3, h4, h5, h6]

theorem parse_line_core_unknown_result_class (d w e : List Char)
    (hd : ∀ x ∈ d, isDigitChar x = true)
    (hw1 : w ≠ []) (hw2 : ∀ x ∈ w, isWordChar x = true)
    (he : parse_result_class w = .error e) :
    parse_line_core (d ++ '^' :: w) = .error e := by
  simp only [parse_line_core,
    matchTokenPrefixed_eval_nocomma '^' d w hd (by decide) hw1 hw2, he]

theorem parse_line_core_unknown_async_class (d w e : List Char)
    (hd : ∀ x ∈ d, isDigitChar x = true)
    (hw1 : w ≠ []) (hw2 : ∀ x ∈ w, isWordChar x = true)
    (he : parse_async_class w = .error e) :
    parse_line_core (d ++ '*' :: w) = .error e := by
  simp only [parse_line_core,
    @matchTokenPrefixed_ne '^' '*' d w hd (by decide) (by decide),
    matchTokenPrefixed_eval_nocomma '*' d w hd (by decide) hw1 hw2, he]

theorem parse_line_core_unknown_notification_class (w e : List Char)
    (hw1 : w ≠ []) (hw2 : ∀ x ∈ w, (x == ',') = false)
    (hw3 : w.any isSpaceChar = false)
    (he : parse_notification_class w = .error e) :
    parse_line_core ('=' :: w) = .error e := by
  simp only [parse_line_core,
    @matchTokenPrefixed_ne_head '^' '=' w (by decide) (by decide),
    @matchTokenPrefixed_ne_head '*' '=' w (by decide) (by decide),
    matchNotificationLine_eval_nocomma w hw1 hw2 hw3, he]

/-- C3, counterexample: a line with prefix `+` does not yield a
Notification — none of the six regexes matches it, so `parse_line` falls
through and returns it as a synthetic *console* record. -/
theorem C3_counterexample_plus_prefix_is_console :
    parse_line "+download".toList = .ok (some (.Console "+download".toList))
    ∧ (∀ ncls nres,
        (MiOutputRecord.Console "+download".toList) ≠ .Notification ncls nres) :=
  ⟨rfl, fun _ _ h => MiOutputRecord.noConfusion h⟩

/-- C3, amended: for every well-formed MI line (trimming leaves it
unchanged, the optional leading decimal token is a digit run, the class
word is non-empty and recognized, the results part has no newline), the
record's tag matches the line's leading prefix character after the
optional token: `^` yields a `Result`, `*` an `Async` record, `=` a
`Notification`, and `~`/`@`/`&` the console/target/log stream records —
but a line with prefix `+` matches no regex and is returned as a synthetic
`Console` record, not as a Notification. -/
theorem C3_amended_parse_line_tag_dispatch :
    (∀ d w c, (∀ x ∈ d, isDigitChar x = true) → w ≠ [] →
      (∀ x ∈ w, isWordChar x = true) → parse_result_class w = .ok c →
      trimList (d ++ '^' :: w) = d ++ '^' :: w →
      parse_line (d ++ '^' :: w) = .ok (some (.Result (tokenOfDigits d) c [])))
    ∧ (∀ d w r c, (∀ x ∈ d, isDigitChar x = true) → w ≠ [] →
      (∀ x ∈ w, isWordChar x = true) → r.contains '\n' = false →
      parse_result_class w = .ok c →
      trimList (d ++ '^' :: (w ++ ',' :: r)) = d ++ '^' :: (w ++ ',' :: r) →
      parse_line (d ++ '^' :: (w ++ ',' :: r))
        = .ok (some (.Result (tokenOfDigits d) c (parse_results r))))
    ∧ (∀ d w c, (∀ x ∈ d, isDigitChar x = true) → w ≠ [] →
      (∀ x ∈ w, isWordChar x = true) → parse_async_class w = .ok c →
      trimList (d ++ '*' :: w) = d ++ '*' :: w →
      parse_line (d ++ '*' :: w) = .ok (some (.Async (tokenOfDigits d) c [])))
    ∧ (∀ d w r c, (∀ x ∈ d, isDigitChar x = true) → w ≠ [] →
      (∀ x ∈ w, isWordChar x = true) → r.contains '\n' = false →
      parse_async_class w = .ok c →
      trimList (d ++ '*' :: (w ++ ',' :: r)) = d ++ '*' :: (w ++ ',' :: r) →
      parse_line (d ++ '*' :: (w ++ ',' :: r))
        = .ok (some (.Async (tokenOfDigits d) c (parse_results r))))
    ∧ (∀ w c, w ≠ [] → (∀ x ∈ w, (x == ',') = false) →
      w.any isSpaceChar = false → parse_notification_class w = .ok c →
      trimList ('=' :: w) = '=' :: w →
      parse_line ('=' :: w) = .ok (some (.Notification c [])))
    ∧ (∀ w r c, w ≠ [] → (∀ x ∈ w, (x == ',') = false) →
      w.any isSpaceChar = false → r.contains '\n' = false →
      parse_notification_class w = .ok c →
      trimList ('=' :: (w ++ ',' :: r)) = '=' :: (w ++ ',' :: r) →
      parse_line ('=' :: (w ++ ',' :: r))
        = .ok (some (.Notification c (parse_results r))))
    ∧ (∀ content, content.contains '\n' = false →
      trimList ('~' :: '"' :: (content ++ ['"'])) = '~' :: '"' :: (content ++ ['"']) →
      parse_line ('~' :: '"' :: (content ++ ['"']))
        = .ok (some (.Console (unescape_string content))))
    ∧ (∀ content, content.contains '\n' = false →
      trimList ('@' :: '"' :: (content ++ ['"'])) = '@' :: '"' :: (content ++ ['"']) →
      parse_line ('@' :: '"' :: (content ++ ['"']))
        = .ok (some (.Target (unescape_string content))))
    ∧ (∀ content, content.contains '\n' = false →
      trimList ('&' :: '"' :: (content ++ ['"'])) = '&' :: '"' :: (content ++ ['"']) →
      parse_line ('&' :: '"' :: (content ++ ['"']))
        = .ok (some (.Log (unescape_string content))))
    ∧ (∀ rest, trimList ('+' :: rest) = '+' :: rest →
      parse_line ('+' :: rest) = .ok (some (.Console ('+' :: rest)))) := by
  refine ⟨?_, ?_, ?_, ?_, ?_, ?_, ?_, ?_, ?_, ?_⟩
  · intro d w c hd hw1 hw2 hc htrim
    rw [parse_line_unguard htrim (by simp)
        (@ne_gdb_of_mem '^' (d ++ '^' :: w) (by simp) (by decide)),
      parse_line_core_result_nocomma d w c hd hw1 hw2 hc]
  · intro d w r c hd hw1 hw2 hr hc htrim
    rw [parse_line_unguard htrim (by simp)
        (@ne_gdb_of_mem '^' (d ++ '^' :: (w ++ ',' :: r)) (by simp) (by decide)),
      parse_line_core_result_comma d w r c hd hw1 hw2 hr hc]
  · intro d w c hd hw1 hw2 hc htrim
    rw [parse_line_unguard htrim (by simp)
        (@ne_gdb_of_mem '*' (d ++ '*' :: w) (by simp) (by decide)),
      parse_line_core_async_nocomma d w c hd hw1 hw2 hc]
  · intro d w r c hd hw1 hw2 hr hc htrim
    rw [parse_line_unguard htrim (by simp)
        (@ne_gdb_of_mem '*' (d ++ '*' :: (w ++ ',' :: r)) (by simp) (by decide)),
      parse_line_core_async_comma d w r c hd hw1 hw2 hr hc]
  · intro w c hw1 hw2 hw3 hc htrim
    rw [parse_line_unguard htrim (by simp)
        (@ne_gdb_of_mem '=' ('=' :: w) (by simp) (by decide)),
      parse_line_core_notification_nocomma w c hw1 hw2 hw3 hc]
  · intro w r c hw1 hw2 hw3 hr hc htrim
    rw [parse_line_unguard htrim (by simp)
        (@ne_gdb_of_mem '=' ('=' :: (w ++ ',' :: r)) (by simp) (by decide)),
      parse_line_core_notification_comma w r c hw1 hw2 hw3 hr hc]
  · intro content hc htrim
    rw [parse_line_unguard htrim (by simp)
        (@ne_gdb_of_mem '~' ('~' :: '\"' :: (content ++ ['\"'])) (by simp) (by decide)),
      parse_line_core_console content hc]
  · intro content hc htrim
    rw [parse_line_unguard htrim (by simp)
        (@ne_gdb_of_mem '@' ('@' :: '\"' :: (content ++ ['\"'])) (by simp) (by decide)),
      parse_line_core_target content hc]
  · intro content hc htrim
    rw [parse_line_unguard htrim (by simp)
        (@ne_gdb_of_mem '&' ('&' :: '\"' :: (content ++ ['\"'])) (by simp) (by decide)),
      parse_line_core_log content hc]
  · intro rest htrim
    rw [parse_line_unguard htrim (by simp)
        (@ne_gdb_of_mem '+' ('+' :: rest) (by simp) (by decide)),
      parse_line_core_fallback ('+' :: rest)
        (@matchTokenPrefixed_ne_head '^' '+' rest (by decide) (by decide))
        (@matchTokenPrefixed_ne_head '*' '+' rest (by decide) (by decide))
        (@matchNotificationLine_ne '+' rest (by decide))
        (@matchStreamLine_ne '~' '+' rest (by decide))
        (@matchStreamLine_ne '@' '+' rest (by decide))
        (@matchStreamLine_ne '&' '+' rest (by decide))]

/-- C3 witness: the amended theorem applied to concrete lines of each
family. -/
theorem C3_amended_parse_line_tag_dispatch_witness :
    parse_line (['1', '2'] ++ '^' :: ("done".toList ++ ',' :: "x=\"1\"".toList))
      = .ok (some (.Result (tokenOfDigits ['1', '2']) .Done
          (parse_results "x=\"1\"".toList)))
    ∧ parse_line ('=' :: "breakpoint-created".toList)
      = .ok (some (.Notification .BreakpointCreated []))
    ∧ parse_line ('~' :: '"' :: ("Hello".toList ++ ['"']))
      = .ok (some (.Console (unescape_string "Hello".toList)))
    ∧ parse_line ('+' :: "dl".toList) = .ok (some (.Console ('+' :: "dl".toList))) :=
  ⟨C3_amended_parse_line_tag_dispatch.2.1 ['1', '2'] "done".toList
      "x=\"1\"".toList .Done (by decide) (by decide) (by decide) rfl rfl rfl,
   C3_amended_parse_line_tag_dispatch.2.2.2.2.1 "breakpoint-created".toList
      .BreakpointCreated (by decide) (by decide) rfl rfl rfl,
   C3_amended_parse_line_tag_dispatch.2.2.2.2.2.2.1 "Hello".toList rfl rfl,
   C3_amended_parse_line_tag_dispatch.2.2.2.2.2.2.2.2.2 "dl".toList rfl⟩

/-- C4, counterexample: a line with an unknown result class is *not*
surfaced as a synthetic console record (nor as any event): `parse_line`
fails, and the pump's `Err` arm only logs the line and drops it. -/
theorem C4_counterexample_unknown_class_line_is_dropped :
    parse_line "^bogus".toList
      = .error ("Unknown result class: ".toList ++ "bogus".toList)
    ∧ process_line [] "^bogus".toList
      = .parseFailure ("Unknown result class: ".toList ++ "bogus".toList)
    ∧ (∀ s, PumpAction.parseFailure ("Unknown result class: ".toList ++ "bogus".toList)
        ≠ .handle (.Console s)) :=
  ⟨rfl, rfl, fun _ h => PumpAction.noConfusion h⟩

/-- C4, amended: a parse failure is non-fatal — the pump processes the line
(whatever the outcome) and goes on to the next one, parse failures touch no
pending entry and fail no pending call — but the two failure modes differ:
lines with an unknown result/async/notification class make `parse_line`
return `Err`, which the pump merely logs and drops (no synthetic console
record, no event), while only lines that match none of the six record
regexes are surfaced as synthetic console records. -/
theorem C4_amended_parse_failure_nonfatal :
    (∀ pending line rest, read_output_loop pending (.ok line :: rest)
        = process_line pending line :: read_output_loop pending rest)
    ∧ (∀ pending line e, parse_line line = .error e →
        process_line pending line = .parseFailure e)
    ∧ (∀ d w e, (∀ x ∈ d, isDigitChar x = true) → w ≠ [] →
        (∀ x ∈ w, isWordChar x = true) → parse_result_class w = .error e →
        trimList (d ++ '^' :: w) = d ++ '^' :: w →
        parse_line (d ++ '^' :: w) = .error e)
    ∧ (∀ d w e, (∀ x ∈ d, isDigitChar x = true) → w ≠ [] →
        (∀ x ∈ w, isWordChar x = true) → parse_async_class w = .error e →
        trimList (d ++ '*' :: w) = d ++ '*' :: w →
        parse_line (d ++ '*' :: w) = .error e)
    ∧ (∀ w e, w ≠ [] → (∀ x ∈ w, (x == ',') = false) →
        w.any isSpaceChar = false → parse_notification_class w = .error e →
        trimList ('=' :: w) = '=' :: w →
        parse_line ('=' :: w) = .error e)
    ∧ (∀ pending line, trimList line = line → line ≠ [] →
        line ≠ "(gdb)".toList →
        matchTokenPrefixed '^' line = none → matchTokenPrefixed '*' line = none →
        matchNotificationLine line = none → matchStreamLine '~' line = none →
        matchStreamLine '@' line = none → matchStreamLine '&' line = none →
        process_line pending line = .handle (.Console line)) := by
  refine ⟨fun _ _ _ => rfl, ?_, ?_, ?_, ?_, ?_⟩
  · intro pending line e h
    simp [process_line, h]
  · intro d w e hd hw1 hw2 he htrim
    rw [parse_line_unguard htrim (by simp)
        (@ne_gdb_of_mem '^' (d ++ '^' :: w) (by simp) (by decide)),
      parse_line_core_unknown_result_class d w e hd hw1 hw2 he]
  · intro d w e hd hw1 hw2 he htrim
    rw [parse_line_unguard htrim (by simp)
        (@ne_gdb_of_mem '*' (d ++ '*' :: w) (by simp) (by decide)),
      parse_line_core_unknown_async_class d w e hd hw1 hw2 he]
  · intro w e hw1 hw2 hw3 he htrim
    rw [parse_line_unguard htrim (by simp)
        (@ne_gdb_of_mem '=' ('=' :: w) (by simp) (by decide)),
      parse_line_core_unknown_notification_class w e hw1 hw2 hw3 he]
  · intro pending line htrim hne hgdb h1 h2 h3 h4 h5 h6
    unfold process_line
    rw [parse_line_unguard htrim hne hgdb,
      parse_line_core_fallback line h1 h2 h3 h4 h5 h6]
    rfl

/-- C4 witness: the amended theorem applied to an unknown-async-class line,
to the boundary line `=,x` — whose lazy `\S+?` backtracks across the comma,
so it matches the notification regex with class `,x`, is an unknown
notification class, and is dropped, not surfaced as console — and to a line
matching no regex. -/
theorem C4_amended_parse_failure_nonfatal_witness :
    process_line [] "*weird".toList
      = .parseFailure ("Unknown async class: ".toList ++ "weird".toList)
    ∧ parse_line ([] ++ '*' :: "weird".toList)
      = .error ("Unknown async class: ".toList ++ "weird".toList)
    ∧ process_line [] "=,x".toList
      = .parseFailure ("Unknown notification class: ".toList ++ ",x".toList)
    ∧ process_line [3] ('%' :: "odd".toList)
      = .handle (.Console ('%' :: "odd".toList)) :=
  ⟨C4_amended_parse_failure_nonfatal.2.1 [] "*weird".toList
      ("Unknown async class: ".toList ++ "weird".toList) rfl,
   C4_amended_parse_failure_nonfatal.2.2.2.1 [] "weird".toList
      ("Unknown async class: ".toList ++ "weird".toList)
      (by decide) (by decide) (by decide) rfl rfl,
   C4_amended_parse_failure_nonfatal.2.1 [] "=,x".toList
      ("Unknown notification class: ".toList ++ ",x".toList) rfl,
   C4_amended_parse_failure_nonfatal.2.2.2.2.2 [3] ('%' :: "odd".toList)
      rfl (by decide) (by decide) rfl rfl rfl rfl rfl rfl⟩
